import Mathlib

/-!
# url-shortener: storage and shortener service

A shallow embedding of `internal/storage/storage.go` and
`internal/shortener/shortener.go`, together with models of the Go standard
library functions they call (`strings.TrimSpace`, `strings.TrimRight`,
`net/url.Parse`, `crypto/sha256.Sum256`, `encoding/base64.URLEncoding`).

Conventions.
* A Go `string` that holds text is a Lean `String` (a sequence of Unicode
  code points, i.e. valid UTF-8).  Where Go works on the bytes of a string
  (URL parsing, hashing) the model works on `utf8 s`, a list of byte values.
* A Go `(string, error)` result is a pair `String × Option Error`, with
  `none` for a `nil` error.
* The mutable `*storage.Storage` behind a `Service` is passed explicitly:
  every operation returns its result together with the service afterwards.
* The read/write lock of `Storage` is not modelled; every operation is one
  atomic step.
-/

namespace UrlShortener

/-- A Go byte string, as the list of its byte values (each below 256). -/
abbrev Bytes := List Nat

/-- The UTF-8 bytes of a text string: what Go's `[]byte(s)` and `s[i]` see. -/
def utf8 (s : String) : Bytes :=
  s.data.flatMap fun c => (String.utf8EncodeChar c).map UInt8.toNat

/-! ## `unicode` and `strings` -/

namespace unicode

/-- Go `unicode.IsSpace`: the Latin-1 spaces `\t \n \v \f \r`, space, U+0085,
U+00A0, and the `White_Space` code points above Latin-1. -/
def IsSpace (r : Char) : Bool :=
  let n := r.toNat
  if n ≤ 0xFF then
    n == 0x09 || n == 0x0A || n == 0x0B || n == 0x0C || n == 0x0D || n == 0x20
      || n == 0x85 || n == 0xA0
  else
    n == 0x1680 || (0x2000 ≤ n && n ≤ 0x200A) || n == 0x2028 || n == 0x2029
      || n == 0x202F || n == 0x205F || n == 0x3000

end unicode

namespace strings

/-- Go `strings.TrimSpace`: the string without its leading and trailing white
space, as `unicode.IsSpace` defines it. -/
def TrimSpace (s : String) : String :=
  ⟨((s.data.dropWhile unicode.IsSpace).reverse.dropWhile unicode.IsSpace).reverse⟩

/-- Go `strings.TrimRight`: the string without its trailing code points that
occur in `cutset`. -/
def TrimRight (s : List Char) (cutset : List Char) : List Char :=
  (s.reverse.dropWhile fun c => cutset.contains c).reverse

end strings

/-- The byte value of an ASCII character. -/
def ch (c : Char) : Nat := c.toNat

/-- The bytes of an ASCII literal. -/
def lit (s : String) : Bytes := s.data.map ch

namespace strings

/-- Helper of `Index`: the first position at or after `i` where `substr` starts. -/
def IndexFrom (substr : Bytes) : Bytes → Nat → Option Nat
  | [], i => if substr = [] then some i else none
  | c :: rest, i =>
    if substr.isPrefixOf (c :: rest) then some i else IndexFrom substr rest (i + 1)

/-- Go `strings.Index`: the position of the first instance of `substr` in `s`,
`none` for Go's `-1`. -/
def Index (s substr : Bytes) : Option Nat := IndexFrom substr s 0

/-- Go `strings.LastIndex` for a one-byte separator: the position of the last
instance of `c` in `s`, `none` for Go's `-1`. -/
def LastIndexByte (s : Bytes) (c : Nat) : Option Nat :=
  let i := s.reverse.indexOf c
  if i < s.length then some (s.length - 1 - i) else none

/-- Go `strings.Cut`: `s` around the first instance of `sep`. -/
def Cut (s sep : Bytes) : Bytes × Bytes × Bool :=
  match Index s sep with
  | some i => (s.take i, s.drop (i + sep.length), true)
  | none => (s, [], false)

end strings

/-! ## `net/url`

A model of the Go standard library function `url.Parse`.  The library is not
part of the repository; the model follows the library source of Go 1.19 to
1.23 function by function (`Parse`, `parse`, `getScheme`, `parseAuthority`,
`parseHost`, `validOptionalPort`, `validUserinfo`, `unescape`, `shouldEscape`).
An error is `none`: `Shorten` only tests `err != nil`.  The fields `RawPath`
and `RawFragment` of `url.URL`, which are encoding hints, are left out. -/

namespace url

/-- Go `url.encoding`: the part of a URL that is being escaped or unescaped. -/
inductive encoding
  | encodePath
  | encodePathSegment
  | encodeHost
  | encodeZone
  | encodeUserPassword
  | encodeQueryComponent
  | encodeFragment
  deriving DecidableEq, Repr

/-- Go `url.Userinfo`. -/
structure Userinfo where
  username : Bytes
  password : Bytes
  passwordSet : Bool
  deriving DecidableEq, Repr

/-- Go `url.URL`, without the hints `RawPath` and `RawFragment`. -/
structure URL where
  Scheme : Bytes := []
  Opaque : Bytes := []
  User : Option Userinfo := none
  Host : Bytes := []
  Path : Bytes := []
  OmitHost : Bool := false
  ForceQuery : Bool := false
  RawQuery : Bytes := []
  Fragment : Bytes := []
  deriving DecidableEq, Repr

def isLetter (c : Nat) : Bool :=
  (ch 'a' ≤ c && c ≤ ch 'z') || (ch 'A' ≤ c && c ≤ ch 'Z')

def isDigit (c : Nat) : Bool := ch '0' ≤ c && c ≤ ch '9'

/-- Whether the byte `c` is one of the ASCII characters of `set`. -/
def oneOf (c : Nat) (set : String) : Bool := (lit set).contains c

/-- Go `url.stringContainsCTLByte`. -/
def stringContainsCTLByte (s : Bytes) : Bool :=
  s.any fun b => b < ch ' ' || b == 0x7f

/-- Go `url.ishex`. -/
def ishex (c : Nat) : Bool :=
  isDigit c || (ch 'a' ≤ c && c ≤ ch 'f') || (ch 'A' ≤ c && c ≤ ch 'F')

/-- Go `url.unhex`. -/
def unhex (c : Nat) : Nat :=
  if isDigit c then c - ch '0'
  else if ch 'a' ≤ c && c ≤ ch 'f' then c - ch 'a' + 10
  else if ch 'A' ≤ c && c ≤ ch 'F' then c - ch 'A' + 10
  else 0

/-- Go `url.shouldEscape`: whether the byte `c` has to be escaped in the part
`mode` of a URL. -/
def shouldEscape (c : Nat) (mode : encoding) : Bool :=
  if isLetter c || isDigit c then false
  else if (mode = .encodeHost ∨ mode = .encodeZone)
      ∧ (oneOf c "!$&()*+,;=:[]<>" ∨ c = 0x27 ∨ c = 0x22) then false
  else if oneOf c "-_.~" then false
  else if oneOf c "$&+,/:;=?@" then
    match mode with
    | .encodePath => c == ch '?'
    | .encodePathSegment => c == ch '/' || c == ch ';' || c == ch ',' || c == ch '?'
    | .encodeUserPassword => c == ch '@' || c == ch '/' || c == ch '?' || c == ch ':'
    | .encodeQueryComponent => true
    | .encodeFragment => false
    | _ => true
  else if mode = .encodeFragment ∧ oneOf c "!()*" then false
  else true

/-- Go `url.unescape`: `s` with every `%XX` replaced by its byte (and `+` by a
space in a query component), `none` for an `EscapeError` or an
`InvalidHostError`. -/
def unescape : Bytes → encoding → Option Bytes
  | [], _ => some []
  | c :: rest, mode =>
    if c = ch '%' then
      match rest with
      | a :: b :: rest2 =>
        if !(ishex a && ishex b) then none
        else if mode = .encodeHost ∧ unhex a < 8 ∧ ¬(a = ch '2' ∧ b = ch '5') then none
        else if mode = .encodeZone ∧ ¬(a = ch '2' ∧ b = ch '5')
            ∧ unhex a * 16 + unhex b ≠ ch ' '
            ∧ shouldEscape (unhex a * 16 + unhex b) .encodeHost then none
        else (unescape rest2 mode).map fun t => (unhex a * 16 + unhex b) :: t
      | _ => none
    else if c = ch '+' then
      (unescape rest mode).map fun t =>
        (if mode = .encodeQueryComponent then ch ' ' else ch '+') :: t
    else if (mode = .encodeHost ∨ mode = .encodeZone) ∧ c < 0x80 ∧ shouldEscape c mode then none
    else (unescape rest mode).map fun t => c :: t

/-- Helper of `getScheme`: the loop over `rawURL`, at position `i` with `rest`
still to read. -/
def getSchemeFrom (rawURL : Bytes) : Bytes → Nat → Option (Bytes × Bytes)
  | [], _ => some ([], rawURL)
  | c :: rest, i =>
    if isLetter c then getSchemeFrom rawURL rest (i + 1)
    else if isDigit c || c == ch '+' || c == ch '-' || c == ch '.' then
      if i = 0 then some ([], rawURL) else getSchemeFrom rawURL rest (i + 1)
    else if c = ch ':' then
      if i = 0 then none else some (rawURL.take i, rest)
    else some ([], rawURL)

/-- Go `url.getScheme`: the scheme before the first `:` and what follows it,
`none` for the error "missing protocol scheme". -/
def getScheme (rawURL : Bytes) : Option (Bytes × Bytes) := getSchemeFrom rawURL rawURL 0

/-- Go `strings.ToLower` on a scheme, which holds ASCII letters, digits and
`+ - .` only. -/
def toLower (s : Bytes) : Bytes :=
  s.map fun c => if ch 'A' ≤ c && c ≤ ch 'Z' then c + 32 else c

/-- Go `url.validOptionalPort`: `port` is empty or `:` followed by digits. -/
def validOptionalPort : Bytes → Bool
  | [] => true
  | c :: rest => c == ch ':' && rest.all isDigit

/-- Go `url.validUserinfo`. -/
def validUserinfo (s : Bytes) : Bool :=
  s.all fun r => isLetter r || isDigit r || oneOf r "-._:~!$&()*+,;=%@" || r == 0x27

/-- Go `url.parseHost`. -/
def parseHost (host : Bytes) : Option Bytes :=
  if host.head? = some (ch '[') then
    match strings.LastIndexByte host (ch ']') with
    | none => none
    | some i =>
      if !validOptionalPort (host.drop (i + 1)) then none
      else
        match strings.Index (host.take i) (lit "%25") with
        | some zone =>
          match unescape (host.take zone) .encodeHost,
            unescape ((host.take i).drop zone) .encodeZone,
            unescape (host.drop i) .encodeHost with
          | some host1, some host2, some host3 => some (host1 ++ host2 ++ host3)
          | _, _, _ => none
        | none => unescape host .encodeHost
  else
    match strings.LastIndexByte host (ch ':') with
    | some i =>
      if !validOptionalPort (host.drop i) then none else unescape host .encodeHost
    | none => unescape host .encodeHost

/-- Go `url.parseAuthority`: the user information and the host of an
authority `[userinfo@]host`. -/
def parseAuthority (authority : Bytes) : Option (Option Userinfo × Bytes) :=
  match strings.LastIndexByte authority (ch '@') with
  | none => (parseHost authority).map fun host => (none, host)
  | some i =>
    match parseHost (authority.drop (i + 1)) with
    | none => none
    | some host =>
      let userinfo := authority.take i
      if !validUserinfo userinfo then none
      else if !userinfo.contains (ch ':') then
        (unescape userinfo .encodeUserPassword).map fun u => (some ⟨u, [], false⟩, host)
      else
        match unescape (strings.Cut userinfo (lit ":")).1 .encodeUserPassword,
          unescape (strings.Cut userinfo (lit ":")).2.1 .encodeUserPassword with
        | some username, some password => some (some ⟨username, password, true⟩, host)
        | _, _ => none

/-- Go `(*URL).setPath`, without the hint `RawPath`. -/
def setPath (u : URL) (p : Bytes) : Option URL :=
  (unescape p .encodePath).map fun path => { u with Path := path }

/-- Go `(*URL).setFragment`, without the hint `RawFragment`. -/
def setFragment (u : URL) (f : Bytes) : Option URL :=
  (unescape f .encodeFragment).map fun frag => { u with Fragment := frag }

/-- Helper of `parse`: the part of Go `url.parse` after the scheme and the
query have been split off and a rootless path has been dealt with. -/
def parseAuthorityAndPath (u : URL) (rest : Bytes) (viaRequest : Bool) : Option URL :=
  if (u.Scheme ≠ [] ∨ (!viaRequest ∧ !(lit "///").isPrefixOf rest))
      ∧ (lit "//").isPrefixOf rest then
    let authority := rest.drop 2
    let split : Bytes × Bytes :=
      match strings.Index authority (lit "/") with
      | some i => (authority.take i, authority.drop i)
      | none => (authority, [])
    match parseAuthority split.1 with
    | none => none
    | some (user, host) => setPath { u with User := user, Host := host } split.2
  else if u.Scheme ≠ [] ∧ (lit "/").isPrefixOf rest then
    setPath { u with OmitHost := true } rest
  else setPath u rest

/-- Go `url.parse`: a URL without fragment; `none` for an error. -/
def parse (rawURL : Bytes) (viaRequest : Bool) : Option URL :=
  if stringContainsCTLByte rawURL then none
  else if rawURL = [] ∧ viaRequest then none
  else if rawURL = lit "*" then some { Path := lit "*" }
  else
    match getScheme rawURL with
    | none => none
    | some (scheme, rest0) =>
      let forceQuery : Bool := rest0.getLast? = some (ch '?') && rest0.count (ch '?') == 1
      let rest := if forceQuery then rest0.dropLast else (strings.Cut rest0 (lit "?")).1
      let rawQuery := if forceQuery then [] else (strings.Cut rest0 (lit "?")).2.1
      let u : URL := { Scheme := toLower scheme, ForceQuery := forceQuery, RawQuery := rawQuery }
      if !(lit "/").isPrefixOf rest then
        if u.Scheme ≠ [] then some { u with Opaque := rest }
        else if viaRequest then none
        else if (strings.Cut rest (lit "/")).1.contains (ch ':') then none
        else parseAuthorityAndPath u rest viaRequest
      else parseAuthorityAndPath u rest viaRequest

/-- Go `url.Parse`: parses a raw URL, fragment included; `none` for an error. -/
def Parse (rawURL : Bytes) : Option URL :=
  match parse (strings.Cut rawURL (lit "#")).1 false with
  | none => none
  | some u =>
    if (strings.Cut rawURL (lit "#")).2.1 = [] then some u
    else setFragment u (strings.Cut rawURL (lit "#")).2.1

end url

/-! ## `crypto/sha256`

A model of the Go standard library function `sha256.Sum256`: SHA-256 as FIPS
180-4 defines it, on 32-bit words held as natural numbers below `2 ^ 32`. -/

namespace sha256

/-- The round constants `_K` of SHA-256. -/
def K : List Nat := [
  0x428A2F98, 0x71374491, 0xB5C0FBCF, 0xE9B5DBA5, 0x3956C25B, 0x59F111F1, 0x923F82A4, 0xAB1C5ED5,
  0xD807AA98, 0x12835B01, 0x243185BE, 0x550C7DC3, 0x72BE5D74, 0x80DEB1FE, 0x9BDC06A7, 0xC19BF174,
  0xE49B69C1, 0xEFBE4786, 0x0FC19DC6, 0x240CA1CC, 0x2DE92C6F, 0x4A7484AA, 0x5CB0A9DC, 0x76F988DA,
  0x983E5152, 0xA831C66D, 0xB00327C8, 0xBF597FC7, 0xC6E00BF3, 0xD5A79147, 0x06CA6351, 0x14292967,
  0x27B70A85, 0x2E1B2138, 0x4D2C6DFC, 0x53380D13, 0x650A7354, 0x766A0ABB, 0x81C2C92E, 0x92722C85,
  0xA2BFE8A1, 0xA81A664B, 0xC24B8B70, 0xC76C51A3, 0xD192E819, 0xD6990624, 0xF40E3585, 0x106AA070,
  0x19A4C116, 0x1E376C08, 0x2748774C, 0x34B0BCB5, 0x391C0CB3, 0x4ED8AA4A, 0x5B9CCA4F, 0x682E6FF3,
  0x748F82EE, 0x78A5636F, 0x84C87814, 0x8CC70208, 0x90BEFFFA, 0xA4506CEB, 0xBEF9A3F7, 0xC67178F2]

/-- Rotation of the 32-bit word `x` to the right by `n` bits (`bits.RotateLeft32(x, -n)`). -/
def rotr (n x : Nat) : Nat := ((x >>> n) ||| (x <<< (32 - n))) % 2 ^ 32

/-- The chaining value `h [8]uint32` of a SHA-256 computation. -/
structure digest where
  h0 : Nat
  h1 : Nat
  h2 : Nat
  h3 : Nat
  h4 : Nat
  h5 : Nat
  h6 : Nat
  h7 : Nat
  deriving DecidableEq, Repr

/-- The initial chaining value (`init0` .. `init7`). -/
def init : digest :=
  ⟨0x6A09E667, 0xBB67AE85, 0x3C6EF372, 0xA54FF53A, 0x510E527F, 0x9B05688C, 0x1F83D9AB, 0x5BE0CD19⟩

/-- The big-endian 32-bit words of a byte sequence. -/
def beWords : Bytes → List Nat
  | a :: b :: c :: d :: rest => (a * 2 ^ 24 + b * 2 ^ 16 + c * 2 ^ 8 + d) :: beWords rest
  | _ => []

/-- The next `n` words of the message schedule, from the window `w` of the
last sixteen words: `w[i] = σ1(w[i-2]) + w[i-7] + σ0(w[i-15]) + w[i-16]`. -/
def extend : Nat → List Nat → List Nat
  | 0, _ => []
  | n + 1, w =>
    let v1 := w.getD 14 0
    let v2 := w.getD 1 0
    let t1 := rotr 17 v1 ^^^ rotr 19 v1 ^^^ (v1 >>> 10)
    let t2 := rotr 7 v2 ^^^ rotr 18 v2 ^^^ (v2 >>> 3)
    let x := (t1 + w.getD 9 0 + t2 + w.getD 0 0) % 2 ^ 32
    x :: extend n (w.drop 1 ++ [x])

/-- One of the 64 rounds of the compression function, with round constant
`kw.1` and schedule word `kw.2`. -/
def round (s : digest) (kw : Nat × Nat) : digest :=
  let t1 := s.h7 + (rotr 6 s.h4 ^^^ rotr 11 s.h4 ^^^ rotr 25 s.h4)
    + ((s.h4 &&& s.h5) ^^^ ((s.h4 ^^^ 0xffffffff) &&& s.h6)) + kw.1 + kw.2
  let t2 := (rotr 2 s.h0 ^^^ rotr 13 s.h0 ^^^ rotr 22 s.h0)
    + ((s.h0 &&& s.h1) ^^^ (s.h0 &&& s.h2) ^^^ (s.h1 &&& s.h2))
  ⟨(t1 + t2) % 2 ^ 32, s.h0, s.h1, s.h2, (s.h3 + t1) % 2 ^ 32, s.h4, s.h5, s.h6⟩

/-- The compression of one 64-byte block `p` into the chaining value `s`. -/
def block (s : digest) (p : Bytes) : digest :=
  let w := beWords p
  let r := (K.zip (w ++ extend 48 w)).foldl round s
  ⟨(s.h0 + r.h0) % 2 ^ 32, (s.h1 + r.h1) % 2 ^ 32, (s.h2 + r.h2) % 2 ^ 32, (s.h3 + r.h3) % 2 ^ 32,
   (s.h4 + r.h4) % 2 ^ 32, (s.h5 + r.h5) % 2 ^ 32, (s.h6 + r.h6) % 2 ^ 32, (s.h7 + r.h7) % 2 ^ 32⟩

/-- The compression of the first `n` 64-byte blocks of `p`. -/
def blocks : Nat → digest → Bytes → digest
  | 0, s, _ => s
  | n + 1, s, p => blocks n (block s (p.take 64)) (p.drop 64)

/-- The `width` bytes of `v`, most significant first. -/
def beBytes (width v : Nat) : Bytes :=
  (List.range width).map fun i => (v >>> (8 * (width - 1 - i))) % 256

/-- The padded message: the message, the byte `0x80`, zero bytes up to 56
modulo 64, and the length of the message in bits as eight bytes. -/
def pad (msg : Bytes) : Bytes :=
  msg ++ 0x80 :: List.replicate ((119 - msg.length % 64) % 64) 0
    ++ beBytes 8 (8 * msg.length % 2 ^ 64)

/-- Go `sha256.Sum256`: the 32 bytes of the SHA-256 checksum of `data`. -/
def Sum256 (data : Bytes) : Bytes :=
  let p := pad data
  let d := blocks (p.length / 64) init p
  [d.h0, d.h1, d.h2, d.h3, d.h4, d.h5, d.h6, d.h7].flatMap (beBytes 4)

end sha256

/-! ## `encoding/base64` -/

namespace base64

/-- The alphabet of Go `base64.URLEncoding` (`encodeURL`). -/
def encodeURL : List Char :=
  "ABCDEFGHIJKLMNOPQRSTUVWXYZabcdefghijklmnopqrstuvwxyz0123456789-_".data

/-- The padding character of `base64.URLEncoding` (`StdPadding`). -/
def padChar : Char := '='

/-- The character `enc.encode[i]` for a six-bit value `i`. -/
def encode (i : Nat) : Char := encodeURL.getD i 'A'

/-- Go `base64.URLEncoding.EncodeToString`: four characters for every three
bytes, the last group padded with `=`. -/
def EncodeToString : Bytes → List Char
  | a :: b :: c :: rest =>
    let val := a <<< 16 ||| b <<< 8 ||| c
    encode (val >>> 18 &&& 0x3F) :: encode (val >>> 12 &&& 0x3F) :: encode (val >>> 6 &&& 0x3F)
      :: encode (val &&& 0x3F) :: EncodeToString rest
  | [a, b] =>
    let val := a <<< 16 ||| b <<< 8
    [encode (val >>> 18 &&& 0x3F), encode (val >>> 12 &&& 0x3F), encode (val >>> 6 &&& 0x3F),
      padChar]
  | [a] =>
    let val := a <<< 16
    [encode (val >>> 18 &&& 0x3F), encode (val >>> 12 &&& 0x3F), padChar, padChar]
  | [] => []

end base64

/-! ## `internal/storage` -/

/-- The errors of the two packages: `shortener.ErrEmptyURL`,
`shortener.ErrInvalidURL` and `storage.ErrNotFound`. -/
inductive Error
  | ErrEmptyURL
  | ErrInvalidURL
  | ErrNotFound
  deriving DecidableEq, Repr

/-- A Go `map[string]string`: a finite map from strings to strings. -/
abbrev StringMap := Finmap (fun _ : String => String)

/-- Go `storage.Storage`: the two maps, without the lock. -/
structure Storage where
  longToShort : StringMap
  shortToLong : StringMap
  deriving DecidableEq

namespace Storage

/-- Go `storage.New`: a storage with two empty maps. -/
def New : Storage := ⟨∅, ∅⟩

/-- Go `(*Storage).Store`: saves the mapping in both directions. -/
def Store (s : Storage) (shortCode longURL : String) : Storage :=
  { longToShort := s.longToShort.insert longURL shortCode
    shortToLong := s.shortToLong.insert shortCode longURL }

/-- Go `(*Storage).GetShortCode`: the short code stored for a long URL, and
whether there is one. -/
def GetShortCode (s : Storage) (longURL : String) : String × Bool :=
  match s.longToShort.lookup longURL with
  | some code => (code, true)
  | none => ("", false)

/-- Go `(*Storage).GetLongURL`: the long URL stored for a short code, or
`ErrNotFound`. -/
def GetLongURL (s : Storage) (shortCode : String) : String × Option Error :=
  match s.shortToLong.lookup shortCode with
  | none => ("", some .ErrNotFound)
  | some longURL => (longURL, none)

end Storage

/-! ## `internal/shortener` -/

/-- Go `shortener.DefaultCodeLength`. -/
def DefaultCodeLength : Nat := 8

/-- Go `shortener.Service`.  The field `storage` is the state of the storage the
service points to.  `codeLength` is a Go `int`; `New`, the only place that sets
it, makes it `DefaultCodeLength`, so it is a natural number here. -/
structure Service where
  storage : Storage
  codeLength : Nat
  deriving DecidableEq

namespace Service

/-- Go `shortener.New`. -/
def New (store : Storage) : Service :=
  { storage := store, codeLength := DefaultCodeLength }

/-- Go `(*Service).generateCode`: the first `codeLength` characters of the
URL-safe base64 encoding of the SHA-256 checksum of the URL, padding removed.
The encoding is ASCII, so Go's byte length `len(encoded)` is its number of
characters. -/
def generateCode (s : Service) (longURL : String) : String :=
  let hash := sha256.Sum256 (utf8 longURL)
  let encoded := base64.EncodeToString hash
  let encoded := strings.TrimRight encoded [base64.padChar]
  if encoded.length > s.codeLength then ⟨encoded.take s.codeLength⟩ else ⟨encoded⟩

/-- Go `(*Service).Shorten`: the result and the service afterwards. -/
def Shorten (s : Service) (longURL : String) : (String × Option Error) × Service :=
  if strings.TrimSpace longURL = "" then (("", some .ErrEmptyURL), s)
  else
    match url.Parse (utf8 longURL) with
    | none => (("", some .ErrInvalidURL), s)
    | some parsedURL =>
      if parsedURL.Scheme = [] ∨ parsedURL.Host = [] then (("", some .ErrInvalidURL), s)
      else
        match s.storage.GetShortCode longURL with
        | (existingCode, true) => ((existingCode, none), s)
        | (_, false) =>
          let shortCode := s.generateCode longURL
          ((shortCode, none), { s with storage := s.storage.Store shortCode longURL })

/-- Go `(*Service).Expand`: the result and the service afterwards. -/
def Expand (s : Service) (shortCode : String) : (String × Option Error) × Service :=
  if strings.TrimSpace shortCode = "" then (("", some .ErrEmptyURL), s)
  else (s.storage.GetLongURL shortCode, s)

end Service

/-! ## Sequences of calls -/

/-- A call of one of the two operations of a service. -/
inductive Call
  | shorten (longURL : String)
  | expand (shortCode : String)
  deriving DecidableEq, Repr

namespace Service

/-- The result of one call and the service afterwards. -/
def call (s : Service) : Call → (String × Option Error) × Service
  | .shorten longURL => s.Shorten longURL
  | .expand shortCode => s.Expand shortCode

/-- The results of a sequence of calls made one after the other, in order, and
the service after the last one. -/
def run (s : Service) : List Call → List (String × Option Error) × Service
  | [] => ([], s)
  | c :: cs => ((s.call c).1 :: ((s.call c).2.run cs).1, ((s.call c).2.run cs).2)

end Service

/-- The string is empty or holds white space only. -/
def isBlank (s : String) : Bool := s.data.all unicode.IsSpace

/-- The string parses as a URL that has a non-empty scheme and a non-empty host. -/
def hasSchemeAndHost (u : String) : Bool :=
  match url.Parse (utf8 u) with
  | some p => p.Scheme != [] && p.Host != []
  | none => false

/-- A valid long URL: not blank, and it parses with a non-empty scheme and a
non-empty host. -/
def validURL (u : String) : Bool := !isBlank u && hasSchemeAndHost u

/-- The entries of a map under the key `k`. -/
def entriesAt (m : StringMap) (k : String) : Multiset (Sigma fun _ : String => String) :=
  m.entries.filter fun e => e.1 = k

/-! ## Example data -/

/-- The URL of `TestShorten_Idempotency`. -/
def idempotencyURL : String := "https://www.example.com/test-idempotency"

/-- A run that interleaves three `Shorten` calls for `idempotencyURL` with an
`Expand` call and a `Shorten` call for another URL. -/
def idempotencyCalls : List Call :=
  [Call.shorten idempotencyURL, Call.expand "nonexistent",
    Call.shorten "https://www.example.com/path1", Call.shorten idempotencyURL,
    Call.shorten idempotencyURL]

/-- The store of the service holds what `Shorten` calls of `calls` have put
there and nothing else: a long URL with an entry is valid, its code is the
generated one, that code has a reverse entry and the URL was shortened by one
of the calls; the long URL of a reverse entry was shortened by one of the
calls, and it has the code as its entry. -/
def Service.Coherent (s : Service) (calls : List Call) : Prop :=
  (∀ v c, s.storage.longToShort.lookup v = some c →
      validURL v = true ∧ c = s.generateCode v
        ∧ (∃ w, s.storage.shortToLong.lookup c = some w) ∧ Call.shorten v ∈ calls)
  ∧ (∀ c w, s.storage.shortToLong.lookup c = some w →
      c = s.generateCode w ∧ s.storage.longToShort.lookup w = some c ∧ Call.shorten w ∈ calls)

/-- The service of the tests, `New(storage.New())`, after the calls `calls`. -/
def reached (calls : List Call) : Service := ((Service.New Storage.New).run calls).2

/-- The storage after the calls `Store(p.1, p.2)` for the pairs `p` of `pairs`,
in order. -/
def Storage.storeAll (s : Storage) (pairs : List (String × String)) : Storage :=
  pairs.foldl (fun st p => st.Store p.1 p.2) s

/-- Two valid long URLs whose SHA-256 checksums share their first six bytes
(`a5 4e a0 68 ee ca`), and so their code `pU6gaO7K`. -/
def collisionURL1 : String := "https://example.com/14416896"

/-- The second URL of the collision. -/
def collisionURL2 : String := "https://example.com/19863740"

/-- The URL of `TestExpand_ValidCode`. -/
def expandURL : String := "https://www.example.com/expand-test"

/-- A character of the URL-safe base64 alphabet: `A-Z`, `a-z`, `0-9`, `-` or `_`. -/
def isURLSafe (c : Char) : Bool :=
  ('A' ≤ c && c ≤ 'Z') || ('a' ≤ c && c ≤ 'z') || ('0' ≤ c && c ≤ '9') || c == '-' || c == '_'

/-! ## `internal/handlers`

The handlers, on the part of a request they read and with the response they
write as their result.  The JSON decoding of the request body
(`json.NewDecoder(r.Body).Decode`) and the writing of the redirect
(`http.Redirect`) belong to the Go standard library: a request carries the
outcome of the decoding, and a redirect response carries the target that is
handed to `http.Redirect`. -/

/-- Go `errors.New(...)` messages: the method `Error()` of the three errors. -/
def Error.Error : Error → String
  | .ErrEmptyURL => "URL cannot be empty"
  | .ErrInvalidURL => "invalid URL format"
  | .ErrNotFound => "short URL not found"

namespace strings

/-- Go `strings.TrimPrefix` for a one-character prefix: `s` without the leading
`p`, if it has one. -/
def TrimPrefix (s : String) (p : Char) : String :=
  match s.data with
  | c :: rest => if c = p then ⟨rest⟩ else s
  | [] => s

end strings

namespace handlers

/-- Go `handlers.ShortenRequest`. -/
structure ShortenRequest where
  URL : String
  deriving DecidableEq, Repr

/-- Go `handlers.ShortenResponse`. -/
structure ShortenResponse where
  ShortURL : String
  ShortCode : String
  LongURL : String
  deriving DecidableEq, Repr

/-- Go `handlers.ErrorResponse`. -/
structure ErrorResponse where
  Error : String
  deriving DecidableEq, Repr

/-- What a handler reads of an `http.Request`: the method, `r.URL.Path`, and the
outcome of decoding the body as JSON into a `ShortenRequest` (`none` when
`Decode` returns an error). -/
structure Request where
  Method : String
  Path : String
  Body : Option ShortenRequest
  deriving DecidableEq, Repr

/-- What a handler writes besides the status: the JSON value it encodes, or the
target it hands to `http.Redirect`. -/
inductive Written
  | error (e : ErrorResponse)
  | shortened (resp : ShortenResponse)
  | redirect (url : String)
  deriving DecidableEq, Repr

/-- The response a handler writes. -/
structure Response where
  StatusCode : Nat
  Body : Written
  deriving DecidableEq, Repr

/-- Go `http.StatusCreated`. -/
def StatusCreated : Nat := 201

/-- Go `http.StatusFound`. -/
def StatusFound : Nat := 302

/-- Go `http.StatusBadRequest`. -/
def StatusBadRequest : Nat := 400

/-- Go `http.StatusNotFound`. -/
def StatusNotFound : Nat := 404

/-- Go `http.StatusMethodNotAllowed`. -/
def StatusMethodNotAllowed : Nat := 405

/-- Go `handlers.Handler`. -/
structure Handler where
  shortener : Service
  baseURL : String
  deriving DecidableEq

namespace Handler

/-- Go `handlers.New`. -/
def New (baseURL : String) (store : Storage) : Handler :=
  { shortener := Service.New store, baseURL := ⟨strings.TrimRight baseURL.data ['/']⟩ }

/-- Go `(*Handler).writeError`. -/
def writeError (message : String) (status : Nat) : Response :=
  { StatusCode := status, Body := .error { Error := message } }

/-- Go `(*Handler).Shorten`: the response and the handler afterwards. -/
def Shorten (h : Handler) (r : Request) : Response × Handler :=
  if r.Method ≠ "POST" then (writeError "method not allowed" StatusMethodNotAllowed, h)
  else
    match r.Body with
    | none => (writeError "invalid JSON body" StatusBadRequest, h)
    | some req =>
      match h.shortener.Shorten req.URL with
      | ((_, some err), svc) =>
        (writeError err.Error StatusBadRequest, { h with shortener := svc })
      | ((shortCode, none), svc) =>
        ({ StatusCode := StatusCreated
           Body := .shortened
            { ShortURL := h.baseURL ++ "/" ++ shortCode
              ShortCode := shortCode
              LongURL := req.URL } },
          { h with shortener := svc })

/-- Go `(*Handler).Redirect`: the response and the handler afterwards. -/
def Redirect (h : Handler) (r : Request) : Response × Handler :=
  if r.Method ≠ "GET" then (writeError "method not allowed" StatusMethodNotAllowed, h)
  else
    let shortCode := strings.TrimPrefix r.Path '/'
    if shortCode = "" then (writeError "short code is required" StatusBadRequest, h)
    else
      match h.shortener.Expand shortCode with
      | ((_, some err), svc) =>
        if err = Error.ErrNotFound then
          (writeError "short URL not found" StatusNotFound, { h with shortener := svc })
        else (writeError err.Error StatusBadRequest, { h with shortener := svc })
      | ((longURL, none), svc) =>
        ({ StatusCode := StatusFound, Body := .redirect longURL }, { h with shortener := svc })

end Handler

/-- A request to one of the two routes. -/
inductive Route
  | shorten (r : Request)
  | redirect (r : Request)
  deriving DecidableEq, Repr

/-- The handler after a sequence of requests, served one after the other. -/
def Handler.serve (h : Handler) : List Route → Handler
  | [] => h
  | Route.shorten r :: rest => Handler.serve (h.Shorten r).2 rest
  | Route.redirect r :: rest => Handler.serve (h.Redirect r).2 rest

end handlers

/-- The create request of the end-to-end example: `POST` with a JSON body whose
`url` is `https://www.example.com/test`. -/
def exampleCreate : handlers.Request :=
  { Method := "POST", Path := "/api/v1/shortURL", Body := some ⟨"https://www.example.com/test"⟩ }

/-! ## Lemmas on the library models -/

theorem dropWhile_eq_nil_iff_all {α : Type} (p : α → Bool) (l : List α) :
    l.dropWhile p = [] ↔ l.all p = true := by
  induction l with
  | nil => simp
  | cons a l ih =>
    by_cases h : p a = true
    · simp [List.dropWhile, h, ih]
    · simp [List.dropWhile, h]

theorem dropWhile_dropWhile_reverse_nil {α : Type} (p : α → Bool) (l : List α)
    (h : ((l.dropWhile p).reverse.dropWhile p) = []) : l.dropWhile p = [] := by
  rw [dropWhile_eq_nil_iff_all] at h
  cases hd : l.dropWhile p with
  | nil => rfl
  | cons a t =>
    have ha : p a = false := by
      have := List.head_dropWhile_not p l (by simp [hd])
      simpa [hd] using this
    rw [hd] at h
    simp [ha] at h

theorem TrimSpace_eq_empty_iff (s : String) : strings.TrimSpace s = "" ↔ isBlank s = true := by
  unfold strings.TrimSpace isBlank
  constructor
  · intro h
    have h1 : ((s.data.dropWhile unicode.IsSpace).reverse.dropWhile unicode.IsSpace).reverse = [] :=
      congrArg String.data h
    rw [List.reverse_eq_nil_iff] at h1
    exact (dropWhile_eq_nil_iff_all _ _).1 (dropWhile_dropWhile_reverse_nil _ _ h1)
  · intro h
    rw [(dropWhile_eq_nil_iff_all _ _).2 h]
    rfl

theorem Sum256_length (data : Bytes) : (sha256.Sum256 data).length = 32 := by
  simp [sha256.Sum256, sha256.beBytes]

theorem encode_mem (i : Nat) : base64.encode i ∈ base64.encodeURL := by
  unfold base64.encode
  by_cases h : i < base64.encodeURL.length
  · rw [List.getD_eq_getElem _ _ h]
    exact List.getElem_mem h
  · rw [List.getD_eq_default _ _ (by omega)]
    decide

theorem EncodeToString_shape (k : Nat) (l : Bytes) (h : l.length = 3 * k + 2) :
    ∃ body : List Char, base64.EncodeToString l = body ++ [base64.padChar]
      ∧ body.length = 4 * k + 3 ∧ ∀ c ∈ body, c ∈ base64.encodeURL := by
  induction k generalizing l with
  | zero =>
    match l, h with
    | [a, b], _ =>
      refine ⟨[base64.encode ((a <<< 16 ||| b <<< 8) >>> 18 &&& 0x3F),
        base64.encode ((a <<< 16 ||| b <<< 8) >>> 12 &&& 0x3F),
        base64.encode ((a <<< 16 ||| b <<< 8) >>> 6 &&& 0x3F)], ?_, rfl, ?_⟩
      · simp only [base64.EncodeToString, List.cons_append, List.nil_append]
      · intro c hc
        simp only [List.mem_cons, List.mem_singleton, List.not_mem_nil, or_false] at hc
        rcases hc with rfl | rfl | rfl <;> exact encode_mem _
  | succ k ih =>
    match l, h with
    | a :: b :: c :: rest, h =>
      have hr : rest.length = 3 * k + 2 := by simp at h; omega
      obtain ⟨body, hb, hl, hm⟩ := ih rest hr
      refine ⟨base64.encode ((a <<< 16 ||| b <<< 8 ||| c) >>> 18 &&& 0x3F)
        :: base64.encode ((a <<< 16 ||| b <<< 8 ||| c) >>> 12 &&& 0x3F)
        :: base64.encode ((a <<< 16 ||| b <<< 8 ||| c) >>> 6 &&& 0x3F)
        :: base64.encode ((a <<< 16 ||| b <<< 8 ||| c) &&& 0x3F) :: body, ?_, ?_, ?_⟩
      · simp only [base64.EncodeToString, hb, List.cons_append]
      · simp only [List.length_cons, hl]; omega
      · intro c hc
        simp only [List.mem_cons] at hc
        rcases hc with rfl | rfl | rfl | rfl | hc
        · exact encode_mem _
        · exact encode_mem _
        · exact encode_mem _
        · exact encode_mem _
        · exact hm c hc

theorem TrimRight_append_pad (body : List Char) (h : ∀ c ∈ body, c ∈ base64.encodeURL) :
    strings.TrimRight (body ++ [base64.padChar]) [base64.padChar] = body := by
  unfold strings.TrimRight
  rw [List.reverse_append]
  simp only [List.reverse_cons, List.reverse_nil, List.nil_append, List.singleton_append]
  rw [List.dropWhile_cons_of_pos (by simp)]
  cases hb : body.reverse with
  | nil => simp [List.reverse_eq_nil_iff.1 hb]
  | cons x t =>
    have hx : x ∈ base64.encodeURL := h x (by
      have : x ∈ body.reverse := by rw [hb]; exact List.mem_cons_self _ _
      exact List.mem_reverse.1 this)
    have hne : x ≠ base64.padChar := by
      rintro rfl
      revert hx
      decide
    rw [List.dropWhile_cons_of_neg (by simpa using hne), ← hb, List.reverse_reverse]

/-! ## Lemmas on `Shorten` and `Expand` -/

theorem Shorten_of_blank (s : Service) (u : String) (h : isBlank u = true) :
    s.Shorten u = (("", some .ErrEmptyURL), s) := by
  unfold Service.Shorten
  rw [if_pos ((TrimSpace_eq_empty_iff u).2 h)]

theorem Shorten_of_not_hasSchemeAndHost (s : Service) (u : String) (hb : isBlank u = false)
    (h : hasSchemeAndHost u = false) : s.Shorten u = (("", some .ErrInvalidURL), s) := by
  have hb' : ¬ strings.TrimSpace u = "" := by
    rw [TrimSpace_eq_empty_iff]; simp [hb]
  unfold Service.Shorten
  rw [if_neg hb']
  unfold hasSchemeAndHost at h
  cases hp : url.Parse (utf8 u) with
  | none => rfl
  | some p =>
    rw [hp] at h
    have h2 : p.Scheme = [] ∨ p.Host = [] := by
      simp only [Bool.and_eq_false_iff, bne_eq_false_iff_eq] at h
      exact h
    simp only [if_pos h2]

theorem Shorten_of_valid (s : Service) (u : String) (h : validURL u = true) :
    s.Shorten u =
      match s.storage.longToShort.lookup u with
      | some c => ((c, none), s)
      | none =>
        ((s.generateCode u, none), { s with storage := s.storage.Store (s.generateCode u) u }) := by
  unfold validURL at h
  simp only [Bool.and_eq_true, Bool.not_eq_true'] at h
  obtain ⟨hb, hp⟩ := h
  have hb' : ¬ strings.TrimSpace u = "" := by
    rw [TrimSpace_eq_empty_iff]; simp [hb]
  unfold Service.Shorten
  rw [if_neg hb']
  unfold hasSchemeAndHost at hp
  cases hq : url.Parse (utf8 u) with
  | none => rw [hq] at hp; exact absurd hp (by simp)
  | some p =>
    rw [hq] at hp
    simp only [Bool.and_eq_true, bne_iff_ne, ne_eq] at hp
    have h2 : ¬ (p.Scheme = [] ∨ p.Host = []) := by
      rintro (h1 | h1)
      · exact hp.1 h1
      · exact hp.2 h1
    simp only [if_neg h2]
    unfold Storage.GetShortCode
    cases s.storage.longToShort.lookup u <;> rfl

theorem Expand_storage (s : Service) (c : String) : (s.Expand c).2 = s := by
  unfold Service.Expand
  split <;> rfl

/-- The code that `Shorten` answers for `u` on the service `s`. -/
theorem Shorten_valid_result (s : Service) (u : String) (h : validURL u = true) :
    (s.Shorten u).1 = ((s.storage.longToShort.lookup u).getD (s.generateCode u), none) := by
  rw [Shorten_of_valid s u h]
  cases s.storage.longToShort.lookup u <;> rfl

theorem Shorten_valid_lookup (s : Service) (u : String) (h : validURL u = true) :
    (s.Shorten u).2.storage.longToShort.lookup u
      = some ((s.storage.longToShort.lookup u).getD (s.generateCode u)) := by
  rw [Shorten_of_valid s u h]
  cases hl : s.storage.longToShort.lookup u with
  | none => simp [Storage.Store, Finmap.lookup_insert]
  | some c => simp [hl]

theorem Shorten_codeLength (s : Service) (u : String) : (s.Shorten u).2.codeLength = s.codeLength := by
  by_cases hb : isBlank u = true
  · rw [Shorten_of_blank s u hb]
  · by_cases hp : hasSchemeAndHost u = true
    · have hv : validURL u = true := by simp [validURL, hb, hp]
      rw [Shorten_of_valid s u hv]
      cases s.storage.longToShort.lookup u <;> rfl
    · rw [Shorten_of_not_hasSchemeAndHost s u (by simpa using hb) (by simpa using hp)]

theorem call_codeLength (s : Service) (k : Call) : (s.call k).2.codeLength = s.codeLength := by
  cases k with
  | shorten v => exact Shorten_codeLength s v
  | expand c => simp [Service.call, Expand_storage]

theorem generateCode_congr (s t : Service) (h : s.codeLength = t.codeLength) (u : String) :
    s.generateCode u = t.generateCode u := by
  unfold Service.generateCode
  rw [h]

/-- A call for another URL, or an `Expand` call, leaves the entry of `u` in the
long-to-short map as it is. -/
theorem Shorten_lookup_of_ne (s : Service) (u v : String) (h : v ≠ u) :
    (s.Shorten v).2.storage.longToShort.lookup u = s.storage.longToShort.lookup u := by
  by_cases hb : isBlank v = true
  · rw [Shorten_of_blank s v hb]
  · by_cases hp : hasSchemeAndHost v = true
    · have hv : validURL v = true := by simp [validURL, hb, hp]
      rw [Shorten_of_valid s v hv]
      cases s.storage.longToShort.lookup v with
      | none => simp [Storage.Store, Finmap.lookup_insert_of_ne _ (Ne.symm h)]
      | some c => rfl
    · rw [Shorten_of_not_hasSchemeAndHost s v (by simpa using hb) (by simpa using hp)]

/-- The code that the service answers for the valid URL `u`: the stored one,
or else the generated one. -/
theorem call_answer (s : Service) (u : String) (hu : validURL u = true) (k : Call) :
    ((s.call k).2.storage.longToShort.lookup u).getD ((s.call k).2.generateCode u)
      = (s.storage.longToShort.lookup u).getD (s.generateCode u) := by
  rw [generateCode_congr _ s (call_codeLength s k)]
  cases k with
  | expand c => simp [Service.call, Expand_storage]
  | shorten v =>
    by_cases hvu : v = u
    · subst hvu
      simp only [Service.call]
      rw [Shorten_valid_lookup s v hu]
      rfl
    · simp only [Service.call]
      rw [Shorten_lookup_of_ne s u v hvu]

theorem entriesAt_of_lookup (m : StringMap) (k c : String) (h : m.lookup k = some c) :
    entriesAt m k = {⟨k, c⟩} := by
  unfold entriesAt
  have hnd : (Multiset.filter (fun e : Sigma fun _ : String => String => e.1 = k) m.entries).Nodup :=
    Multiset.Nodup.filter _ m.nodupKeys.nodup
  refine (Multiset.Nodup.ext hnd (Multiset.nodup_singleton _)).2 ?_
  intro e
  rw [Multiset.mem_filter, Multiset.mem_singleton]
  constructor
  · rintro ⟨he, hk⟩
    obtain ⟨a, b⟩ := e
    simp only at hk
    subst hk
    have := Finmap.lookup_eq_some_iff.2 he
    rw [h] at this
    cases this
    rfl
  · rintro rfl
    exact ⟨Finmap.lookup_eq_some_iff.1 h, rfl⟩

theorem run_length (calls : List Call) (s : Service) : (s.run calls).1.length = calls.length := by
  induction calls generalizing s with
  | nil => rfl
  | cons k ks ih => simp [Service.run, ih]

theorem call_lookup_some (s : Service) (u c : String) (k : Call)
    (h : s.storage.longToShort.lookup u = some c) :
    (s.call k).2.storage.longToShort.lookup u = some c := by
  cases k with
  | expand d => simpa [Service.call, Expand_storage] using h
  | shorten v =>
    by_cases hvu : v = u
    · subst hvu
      by_cases hb : isBlank v = true
      · simpa [Service.call, Shorten_of_blank s v hb] using h
      · by_cases hp : hasSchemeAndHost v = true
        · have hv : validURL v = true := by simp [validURL, hb, hp]
          simp only [Service.call]
          rw [Shorten_valid_lookup s v hv, h]
          rfl
        · simpa [Service.call,
            Shorten_of_not_hasSchemeAndHost s v (by simpa using hb) (by simpa using hp)] using h
    · simp only [Service.call]
      rw [Shorten_lookup_of_ne s u v hvu, h]

theorem run_lookup_some (calls : List Call) (s : Service) (u c : String)
    (h : s.storage.longToShort.lookup u = some c) :
    (s.run calls).2.storage.longToShort.lookup u = some c := by
  induction calls generalizing s with
  | nil => exact h
  | cons k ks ih => exact ih _ (call_lookup_some s u c k h)

/-- Every `Shorten(u)` call of a run answers the code the service answers for
`u` at the start, and once such a call has been made that code is stored. -/
theorem run_answers (u : String) (hu : validURL u = true) (calls : List Call) (s : Service) :
    (∀ p ∈ calls.zip (s.run calls).1, p.1 = Call.shorten u →
        p.2 = ((s.storage.longToShort.lookup u).getD (s.generateCode u), none))
      ∧ (Call.shorten u ∈ calls → (s.run calls).2.storage.longToShort.lookup u
          = some ((s.storage.longToShort.lookup u).getD (s.generateCode u))) := by
  induction calls generalizing s with
  | nil => simp [Service.run]
  | cons k ks ih =>
    obtain ⟨ih1, ih2⟩ := ih (s.call k).2
    rw [call_answer s u hu k] at ih1 ih2
    constructor
    · intro p hp hpu
      simp only [Service.run, List.zip_cons_cons, List.mem_cons] at hp
      rcases hp with rfl | hp
      · simp only at hpu
        subst hpu
        exact Shorten_valid_result s u hu
      · exact ih1 p hp hpu
    · intro hmem
      by_cases hk : k = Call.shorten u
      · subst hk
        exact run_lookup_some ks _ u _ (Shorten_valid_lookup s u hu)
      · have : Call.shorten u ∈ ks := by
          rcases List.mem_cons.1 hmem with h | h
          · exact absurd h.symm hk
          · exact h
        exact ih2 this

theorem generateCode_data (s : Service) (u : String) :
    ∃ body : List Char, body.length = 43 ∧ (∀ c ∈ body, c ∈ base64.encodeURL)
      ∧ strings.TrimRight (base64.EncodeToString (sha256.Sum256 (utf8 u))) [base64.padChar] = body
      ∧ (s.generateCode u).data = body.take s.codeLength := by
  obtain ⟨body, hb, hl, hm⟩ :=
    EncodeToString_shape 10 (sha256.Sum256 (utf8 u)) (Sum256_length _)
  have ht := TrimRight_append_pad body hm
  have e : strings.TrimRight (base64.EncodeToString (sha256.Sum256 (utf8 u)))
      [base64.padChar] = body := by
    rw [hb, ht]
  have hd : (s.generateCode u).data = body.take s.codeLength := by
    unfold Service.generateCode
    simp only [e]
    split
    · rfl
    · rw [List.take_of_length_le (by omega)]
  exact ⟨body, hl, hm, e, hd⟩

theorem length_eq_data_length (s : String) : s.length = s.data.length := by
  cases s
  rfl

theorem generateCode_length (s : Service) (h : s.codeLength = DefaultCodeLength) (u : String) :
    (s.generateCode u).length = 8 := by
  obtain ⟨body, hl, -, -, hd⟩ := generateCode_data s u
  rw [length_eq_data_length, hd, h, List.length_take, hl]
  rfl

theorem isBlank_false_of_encodeURL (c : Char) (t : List Char) (hc : c ∈ base64.encodeURL) :
    isBlank ⟨c :: t⟩ = false := by
  have : unicode.IsSpace c = false := by
    revert c
    decide
  simp [isBlank, this]

theorem generateCode_not_blank (s : Service) (h : 0 < s.codeLength) (u : String) :
    isBlank (s.generateCode u) = false := by
  obtain ⟨body, hl, hm, -, hd⟩ := generateCode_data s u
  match body, hl, hm, hd with
  | c :: t, _, hm, hd =>
    obtain ⟨n, hn⟩ : ∃ n, s.codeLength = n + 1 := ⟨s.codeLength - 1, by omega⟩
    rw [hn, List.take_succ_cons] at hd
    have : s.generateCode u = ⟨c :: t.take n⟩ := by
      rw [← hd]
    rw [this]
    exact isBlank_false_of_encodeURL c _ (hm c (List.mem_cons_self _ _))

theorem Coherent_New (calls : List Call) : (Service.New Storage.New).Coherent calls := by
  constructor
  · intro v c h
    simp [Service.New, Storage.New] at h
  · intro c w h
    simp [Service.New, Storage.New] at h

theorem Coherent_Shorten (s : Service) (calls : List Call) (v : String)
    (hk : Call.shorten v ∈ calls) (h : s.Coherent calls) : (s.Shorten v).2.Coherent calls := by
  by_cases hb : isBlank v = true
  · rw [Shorten_of_blank s v hb]; exact h
  · by_cases hp : hasSchemeAndHost v = true
    swap
    · rw [Shorten_of_not_hasSchemeAndHost s v (by simpa using hb) (by simpa using hp)]; exact h
    have hv : validURL v = true := by simp [validURL, hb, hp]
    rw [Shorten_of_valid s v hv]
    cases hl : s.storage.longToShort.lookup v with
    | some c => exact h
    | none =>
      obtain ⟨h1, h2⟩ := h
      have hg : ∀ x, Service.generateCode
          { s with storage := s.storage.Store (s.generateCode v) v } x = s.generateCode x :=
        fun x => generateCode_congr _ _ rfl x
      constructor
      · intro x c hx
        rw [hg]
        simp only [Storage.Store] at hx ⊢
        by_cases hxv : x = v
        · subst hxv
          rw [Finmap.lookup_insert] at hx
          cases hx
          exact ⟨hv, rfl, ⟨x, Finmap.lookup_insert _⟩, hk⟩
        · rw [Finmap.lookup_insert_of_ne _ hxv] at hx
          obtain ⟨a1, a2, ⟨w, a3⟩, a4⟩ := h1 x c hx
          refine ⟨a1, a2, ?_, a4⟩
          by_cases hc : c = s.generateCode v
          · exact ⟨v, by rw [hc, Finmap.lookup_insert]⟩
          · exact ⟨w, by rw [Finmap.lookup_insert_of_ne _ hc]; exact a3⟩
      · intro c w hc
        rw [hg]
        simp only [Storage.Store] at hc ⊢
        by_cases hcv : c = s.generateCode v
        · subst hcv
          rw [Finmap.lookup_insert] at hc
          cases hc
          exact ⟨rfl, Finmap.lookup_insert _, hk⟩
        · rw [Finmap.lookup_insert_of_ne _ hcv] at hc
          obtain ⟨a1, a2, a3⟩ := h2 c w hc
          have hwv : w ≠ v := by
            rintro rfl
            rw [hl] at a2
            cases a2
          exact ⟨a1, by rw [Finmap.lookup_insert_of_ne _ hwv]; exact a2, a3⟩

theorem Coherent_call (s : Service) (calls : List Call) (k : Call) (hk : k ∈ calls)
    (h : s.Coherent calls) : (s.call k).2.Coherent calls := by
  cases k with
  | shorten v => exact Coherent_Shorten s calls v hk h
  | expand c => simpa [Service.call, Expand_storage] using h

theorem Coherent_run_of_subset (calls cs : List Call) (hsub : ∀ k ∈ cs, k ∈ calls) (s : Service)
    (h : s.Coherent calls) : (s.run cs).2.Coherent calls := by
  induction cs generalizing s with
  | nil => exact h
  | cons k ks ih =>
    exact ih (fun x hx => hsub x (List.mem_cons_of_mem _ hx)) _
      (Coherent_call s calls k (hsub k (List.mem_cons_self _ _)) h)

/-- Every state that a fresh service reaches through the calls `calls` is
coherent with them. -/
theorem Coherent_run (calls : List Call) : (reached calls).Coherent calls :=
  Coherent_run_of_subset calls calls (fun _ h => h) _ (Coherent_New calls)

theorem run_codeLength (calls : List Call) (s : Service) :
    (s.run calls).2.codeLength = s.codeLength := by
  induction calls generalizing s with
  | nil => rfl
  | cons k ks ih => exact (ih _).trans (call_codeLength s k)

theorem generateCode_collisionURL1 :
    (Service.New Storage.New).generateCode collisionURL1 = "pU6gaO7K" := by decide!

theorem generateCode_collisionURL2 :
    (Service.New Storage.New).generateCode collisionURL2 = "pU6gaO7K" := by decide!

theorem reached_codeLength (calls : List Call) : (reached calls).codeLength = DefaultCodeLength :=
  run_codeLength calls _

theorem GetShortCode_eq_iff (st : Storage) (u c : String) :
    st.GetShortCode u = (c, true) ↔ st.longToShort.lookup u = some c := by
  unfold Storage.GetShortCode
  cases st.longToShort.lookup u <;> simp

theorem GetLongURL_eq_iff (st : Storage) (u c : String) :
    st.GetLongURL c = (u, none) ↔ st.shortToLong.lookup c = some u := by
  unfold Storage.GetLongURL
  cases st.shortToLong.lookup c <;> simp

theorem storeAll_append (st : Storage) (ps : List (String × String)) (p : String × String) :
    st.storeAll (ps ++ [p]) = (st.storeAll ps).Store p.1 p.2 := by
  simp [Storage.storeAll, List.foldl_append]

/-- When no code is stored with two long URLs and no long URL with two codes,
each map holds the stored pairs and nothing else. -/
theorem lookup_storeAll (pairs : List (String × String))
    (h : ∀ p ∈ pairs, ∀ q ∈ pairs, (p.1 = q.1 ↔ p.2 = q.2)) (u c : String) :
    ((Storage.New.storeAll pairs).longToShort.lookup u = some c ↔ (c, u) ∈ pairs)
      ∧ ((Storage.New.storeAll pairs).shortToLong.lookup c = some u ↔ (c, u) ∈ pairs) := by
  induction pairs using List.reverseRecOn generalizing u c with
  | nil => simp [Storage.storeAll, Storage.New]
  | append_singleton ps p ih =>
    have hps : ∀ a ∈ ps, ∀ b ∈ ps, (a.1 = b.1 ↔ a.2 = b.2) :=
      fun a ha b hb => h a (List.mem_append_left _ ha) b (List.mem_append_left _ hb)
    have hp : p ∈ ps ++ [p] := List.mem_append_right _ (List.mem_singleton_self p)
    rw [storeAll_append]
    simp only [Storage.Store, List.mem_append, List.mem_singleton]
    constructor
    · by_cases hu : u = p.2
      · subst hu
        rw [Finmap.lookup_insert]
        constructor
        · intro e
          cases e
          exact Or.inr rfl
        · rintro (hm | hm)
          · have := (h (c, p.2) (List.mem_append_left _ hm) p hp).2 rfl
            simp only at this
            rw [this]
          · rw [← hm]
      · rw [Finmap.lookup_insert_of_ne _ hu, (ih hps u c).1]
        constructor
        · exact Or.inl
        · rintro (hm | hm)
          · exact hm
          · exact absurd (by rw [← hm]) hu
    · by_cases hc : c = p.1
      · subst hc
        rw [Finmap.lookup_insert]
        constructor
        · intro e
          cases e
          exact Or.inr rfl
        · rintro (hm | hm)
          · have := (h (p.1, u) (List.mem_append_left _ hm) p hp).1 rfl
            simp only at this
            rw [this]
          · rw [← hm]
      · rw [Finmap.lookup_insert_of_ne _ hc, (ih hps u c).2]
        constructor
        · exact Or.inl
        · rintro (hm | hm)
          · exact hm
          · exact absurd (by rw [← hm]) hc

/-! ## Further lemmas -/

theorem run_append (a b : List Call) (s : Service) :
    (s.run (a ++ b)).2 = ((s.run a).2.run b).2 := by
  induction a generalizing s with
  | nil => rfl
  | cons k ks ih => simp only [List.cons_append, Service.run]; exact ih _

theorem validURL_of_Shorten_ok (s : Service) (u : String) (h : (s.Shorten u).1.2 = none) :
    validURL u = true := by
  by_cases hb : isBlank u = true
  · rw [Shorten_of_blank s u hb] at h
    cases h
  · by_cases hp : hasSchemeAndHost u = true
    · simp [validURL, hb, hp]
    · rw [Shorten_of_not_hasSchemeAndHost s u (by simpa using hb) (by simpa using hp)] at h
      cases h

theorem Shorten_unchanged_of_error (s : Service) (u : String) (h : (s.Shorten u).1.2 ≠ none) :
    (s.Shorten u).2 = s := by
  by_cases hb : isBlank u = true
  · rw [Shorten_of_blank s u hb]
  · by_cases hp : hasSchemeAndHost u = true
    · have hv : validURL u = true := by simp [validURL, hb, hp]
      have := Shorten_valid_result s u hv
      rw [this] at h
      exact absurd rfl h
    · rw [Shorten_of_not_hasSchemeAndHost s u (by simpa using hb) (by simpa using hp)]

theorem Shorten_unchanged_of_lookup (s : Service) (u c : String)
    (h : s.storage.longToShort.lookup u = some c) : (s.Shorten u).2 = s := by
  by_cases hb : isBlank u = true
  · rw [Shorten_of_blank s u hb]
  · by_cases hp : hasSchemeAndHost u = true
    · have hv : validURL u = true := by simp [validURL, hb, hp]
      rw [Shorten_of_valid s u hv, h]
    · rw [Shorten_of_not_hasSchemeAndHost s u (by simpa using hb) (by simpa using hp)]

theorem Shorten_new (s : Service) (u : String) (hu : validURL u = true)
    (hnew : s.storage.longToShort.lookup u = none) :
    s.Shorten u
      = ((s.generateCode u, none), { s with storage := s.storage.Store (s.generateCode u) u }) := by
  rw [Shorten_of_valid s u hu, hnew]

theorem Shorten_new_storage (s : Service) (u : String) (hu : validURL u = true)
    (hnew : s.storage.longToShort.lookup u = none) :
    (s.Shorten u).2.storage = s.storage.Store (s.generateCode u) u := by
  rw [Shorten_new s u hu hnew]

theorem Expand_of_not_blank (s : Service) (c : String) (h : isBlank c = false) :
    s.Expand c = (s.storage.GetLongURL c, s) := by
  unfold Service.Expand
  rw [if_neg (by rw [TrimSpace_eq_empty_iff]; simp [h])]

theorem reached_nil : reached [] = Service.New Storage.New := rfl

theorem generateCode_reached (calls : List Call) (u : String) :
    (reached calls).generateCode u = (Service.New Storage.New).generateCode u :=
  generateCode_congr _ _ (reached_codeLength calls) u

theorem EncodeToString_cons3 (a b c : Nat) (rest : Bytes) :
    base64.EncodeToString (a :: b :: c :: rest)
      = base64.EncodeToString [a, b, c] ++ base64.EncodeToString rest := by
  simp only [base64.EncodeToString, List.cons_append, List.nil_append]

/-- For a sequence of 32 bytes, the first eight characters of the encoding
without padding are the encoding of the first six bytes. -/
theorem TrimRight_take_eight (l : Bytes) (h : l.length = 32) :
    (strings.TrimRight (base64.EncodeToString l) [base64.padChar]).take 8
      = base64.EncodeToString (l.take 6)
      ∧ (base64.EncodeToString (l.take 6)).length = 8
      ∧ ∀ c ∈ base64.EncodeToString (l.take 6), c ∈ base64.encodeURL := by
  obtain ⟨body, hb, hl, hm⟩ := EncodeToString_shape 10 l h
  match l, h with
  | a :: b :: c :: d :: e :: f :: rest, h =>
    have e6 : base64.EncodeToString (a :: b :: c :: d :: e :: f :: rest)
        = base64.EncodeToString [a, b, c, d, e, f] ++ base64.EncodeToString rest := by
      simp only [base64.EncodeToString, List.cons_append, List.nil_append]
    have hlen : (base64.EncodeToString [a, b, c, d, e, f]).length = 8 := by
      simp only [base64.EncodeToString, List.length_cons, List.length_nil]
    have htake : (a :: b :: c :: d :: e :: f :: rest).take 6 = [a, b, c, d, e, f] := by
      simp only [List.take_succ_cons, List.take_zero]
    have ht := TrimRight_append_pad body hm
    rw [htake, hb, ht]
    have hpre : body = base64.EncodeToString [a, b, c, d, e, f]
        ++ (body.drop 8) := by
      have h1 : body ++ [base64.padChar]
          = base64.EncodeToString [a, b, c, d, e, f] ++ base64.EncodeToString rest := by
        rw [← hb, e6]
      have h2 := congrArg (List.take 8) h1
      rw [List.take_append_of_le_length (by omega), List.take_left' hlen] at h2
      rw [← h2, List.take_append_drop]
    refine ⟨?_, hlen, ?_⟩
    · conv_lhs => rw [hpre]
      exact List.take_left' hlen
    · intro x hx
      exact hm x (by rw [hpre]; exact List.mem_append_left _ hx)

theorem generateCode_eq_sixBytes (s : Service) (h : s.codeLength = DefaultCodeLength)
    (u : String) :
    s.generateCode u = ⟨base64.EncodeToString ((sha256.Sum256 (utf8 u)).take 6)⟩ := by
  obtain ⟨body, hl, -, ht, hd⟩ := generateCode_data s u
  have h8 := (TrimRight_take_eight (sha256.Sum256 (utf8 u)) (Sum256_length _)).1
  rw [ht] at h8
  rw [h, DefaultCodeLength, h8] at hd
  cases hg : s.generateCode u with
  | mk data =>
    rw [hg] at hd
    simp only at hd
    rw [hd]

theorem encodeURL_safe (c : Char) (h : c ∈ base64.encodeURL) :
    isURLSafe c = true ∧ c ≠ '+' ∧ c ≠ '/' ∧ c ≠ '=' ∧ c ≠ Char.ofNat 10
      ∧ c ≠ Char.ofNat 13 := by
  revert c
  decide

theorem generateCode_mem (s : Service) (u : String) (c : Char)
    (h : c ∈ (s.generateCode u).data) : c ∈ base64.encodeURL := by
  obtain ⟨body, -, hm, -, hd⟩ := generateCode_data s u
  rw [hd] at h
  exact hm c (List.mem_of_mem_take h)

theorem Shorten_reached_result (calls : List Call) (u : String) (hu : validURL u = true) :
    ((reached calls).Shorten u).1 = ((Service.New Storage.New).generateCode u, none) := by
  rw [Shorten_valid_result _ u hu]
  cases hl : (reached calls).storage.longToShort.lookup u with
  | none => rw [Option.getD_none, generateCode_reached]
  | some c => rw [Option.getD_some, ((Coherent_run calls).1 u c hl).2.1, generateCode_reached]

theorem Shorten_cases (s : Service) (u : String) :
    (s.Shorten u).2 = s
      ∨ (validURL u = true ∧ s.storage.longToShort.lookup u = none
        ∧ (s.Shorten u).2.storage = s.storage.Store (s.generateCode u) u) := by
  by_cases hv : validURL u = true
  · cases hl : s.storage.longToShort.lookup u with
    | none => exact Or.inr ⟨hv, rfl, Shorten_new_storage s u hv hl⟩
    | some c => exact Or.inl (Shorten_unchanged_of_lookup s u c hl)
  · left
    apply Shorten_unchanged_of_error
    intro h
    exact hv (validURL_of_Shorten_ok s u h)

theorem call_short_isSome (s : Service) (d : String) (k : Call)
    (h : s.storage.shortToLong.lookup d ≠ none) :
    (s.call k).2.storage.shortToLong.lookup d ≠ none := by
  cases k with
  | expand c => simpa [Service.call, Expand_storage] using h
  | shorten v =>
    simp only [Service.call]
    rcases Shorten_cases s v with e | ⟨-, -, e⟩
    · rw [e]; exact h
    · rw [e]
      simp only [Storage.Store]
      by_cases hd : d = s.generateCode v
      · rw [hd, Finmap.lookup_insert]
        exact Option.some_ne_none _
      · rw [Finmap.lookup_insert_of_ne _ hd]
        exact h

theorem run_short_isSome (more : List Call) (s : Service) (d : String)
    (h : s.storage.shortToLong.lookup d ≠ none) :
    (s.run more).2.storage.shortToLong.lookup d ≠ none := by
  induction more generalizing s with
  | nil => exact h
  | cons k ks ih => exact ih _ (call_short_isSome s d k h)

theorem call_short_preserved (s : Service) (u c : String) (k : Call)
    (hl : s.storage.longToShort.lookup u = some c)
    (hs : s.storage.shortToLong.lookup c = some u)
    (hk : ∀ v, k = Call.shorten v → validURL v = true → v ≠ u → s.generateCode v ≠ c) :
    (s.call k).2.storage.shortToLong.lookup c = some u := by
  cases k with
  | expand d => simpa [Service.call, Expand_storage] using hs
  | shorten v =>
    simp only [Service.call]
    rcases Shorten_cases s v with e | ⟨hv, hnew, e⟩
    · rw [e]; exact hs
    · have hvu : v ≠ u := by
        rintro rfl
        rw [hl] at hnew
        cases hnew
      rw [e]
      simp only [Storage.Store]
      rw [Finmap.lookup_insert_of_ne _ (Ne.symm (hk v rfl hv hvu))]
      exact hs

theorem run_short_preserved (more : List Call) (s : Service) (u c : String)
    (hl : s.storage.longToShort.lookup u = some c)
    (hs : s.storage.shortToLong.lookup c = some u)
    (hk : ∀ v, Call.shorten v ∈ more → validURL v = true → v ≠ u → s.generateCode v ≠ c) :
    (s.run more).2.storage.shortToLong.lookup c = some u := by
  induction more generalizing s with
  | nil => exact hs
  | cons k ks ih =>
    refine ih (s.call k).2 (call_lookup_some s u c k hl) ?_ ?_
    · exact call_short_preserved s u c k hl hs
        (fun v hkv hv hvu => hk v (by rw [hkv]; exact List.mem_cons_self _ _) hv hvu)
    · intro v hmem hv hvu
      rw [generateCode_congr _ s (call_codeLength s k)]
      exact hk v (List.mem_cons_of_mem _ hmem) hv hvu

theorem encode_inj (i j : Nat) (hi : i < 64) (hj : j < 64)
    (h : base64.encode i = base64.encode j) : i = j := by
  have key : ∀ i < 64, ∀ j < 64, base64.encode i = base64.encode j → i = j := by decide!
  exact key i hi j hj h

theorem group_value (a b c : Nat) (hb : b < 256) (hc : c < 256) :
    a <<< 16 ||| b <<< 8 ||| c = a * 65536 + b * 256 + c := by
  have h1 : a <<< 16 ||| b <<< 8 = 2 ^ 16 * a + b * 256 := by
    rw [Nat.shiftLeft_eq, Nat.shiftLeft_eq, Nat.mul_comm a (2 ^ 16)]
    exact (Nat.mul_add_lt_is_or (by omega) a).symm
  have h2 : (2 ^ 16 * a + b * 256) ||| c = 2 ^ 8 * (2 ^ 8 * a + b) + c := by
    have e : 2 ^ 16 * a + b * 256 = 2 ^ 8 * (2 ^ 8 * a + b) := by omega
    rw [e]
    exact (Nat.mul_add_lt_is_or (by omega) _).symm
  rw [h1, h2]
  omega

theorem sextet (v k : Nat) : v >>> k &&& 0x3F = v / 2 ^ k % 64 := by
  rw [Nat.shiftRight_eq_div_pow]
  exact Nat.and_pow_two_sub_one_eq_mod _ 6

theorem EncodeToString_three_inj (a b c a' b' c' : Nat) (ha : a < 256) (hb : b < 256)
    (hc : c < 256) (ha' : a' < 256) (hb' : b' < 256) (hc' : c' < 256)
    (h : base64.EncodeToString [a, b, c] = base64.EncodeToString [a', b', c']) :
    a = a' ∧ b = b' ∧ c = c' := by
  simp only [base64.EncodeToString, List.cons.injEq, and_true] at h
  obtain ⟨h0, h1, h2, h3⟩ := h
  have e3 : ∀ v : Nat, v &&& 0x3F = v % 64 := fun v => Nat.and_pow_two_sub_one_eq_mod v 6
  rw [sextet, sextet, group_value a b c hb hc, group_value a' b' c' hb' hc'] at h0 h1 h2
  rw [e3, e3, group_value a b c hb hc, group_value a' b' c' hb' hc'] at h3
  have q0 := encode_inj _ _ (Nat.mod_lt _ (by decide)) (Nat.mod_lt _ (by decide)) h0
  have q1 := encode_inj _ _ (Nat.mod_lt _ (by decide)) (Nat.mod_lt _ (by decide)) h1
  have q2 := encode_inj _ _ (Nat.mod_lt _ (by decide)) (Nat.mod_lt _ (by decide)) h2
  have q3 := encode_inj _ _ (Nat.mod_lt _ (by decide)) (Nat.mod_lt _ (by decide)) h3
  simp only [Nat.reducePow] at q0 q1 q2
  omega

theorem Sum256_lt (data : Bytes) (b : Nat) (h : b ∈ sha256.Sum256 data) : b < 256 := by
  simp only [sha256.Sum256, sha256.beBytes, List.mem_flatMap, List.mem_map] at h
  obtain ⟨-, -, -, -, rfl⟩ := h
  exact Nat.mod_lt _ (by decide)

theorem EncodeToString_six_inj (l l' : Bytes) (hl : l.length = 6) (hl' : l'.length = 6)
    (hb : ∀ b ∈ l, b < 256) (hb' : ∀ b ∈ l', b < 256)
    (h : base64.EncodeToString l = base64.EncodeToString l') : l = l' := by
  match l, hl, l', hl' with
  | [a, b, c, d, e, f], _, [a', b', c', d', e', f'], _ =>
    rw [EncodeToString_cons3 a b c, EncodeToString_cons3 a' b' c'] at h
    have hlen : (base64.EncodeToString [a, b, c]).length
        = (base64.EncodeToString [a', b', c']).length := by
      simp only [base64.EncodeToString, List.length_cons, List.length_nil]
    obtain ⟨h1, h2⟩ := List.append_inj h hlen
    simp only [List.mem_cons, List.mem_singleton, List.not_mem_nil, or_false,
      forall_eq_or_imp, forall_eq] at hb hb'
    obtain ⟨p1, p2, p3⟩ := EncodeToString_three_inj a b c a' b' c' hb.1 hb.2.1 hb.2.2.1
      hb'.1 hb'.2.1 hb'.2.2.1 h1
    obtain ⟨p4, p5, p6⟩ := EncodeToString_three_inj d e f d' e' f' hb.2.2.2.1 hb.2.2.2.2.1
      hb.2.2.2.2.2 hb'.2.2.2.1 hb'.2.2.2.2.1 hb'.2.2.2.2.2 h2
    rw [p1, p2, p3, p4, p5, p6]

/-- With the default code length, two URLs get the same code exactly when their
checksums share their first six bytes. -/
theorem generateCode_eq_iff (s : Service) (h : s.codeLength = DefaultCodeLength)
    (u v : String) :
    s.generateCode u = s.generateCode v
      ↔ (sha256.Sum256 (utf8 u)).take 6 = (sha256.Sum256 (utf8 v)).take 6 := by
  rw [generateCode_eq_sixBytes s h u, generateCode_eq_sixBytes s h v]
  constructor
  · intro e
    have e' : base64.EncodeToString ((sha256.Sum256 (utf8 u)).take 6)
        = base64.EncodeToString ((sha256.Sum256 (utf8 v)).take 6) := by
      injection e
    refine EncodeToString_six_inj _ _ ?_ ?_ ?_ ?_ e'
    · rw [List.length_take, Sum256_length]; rfl
    · rw [List.length_take, Sum256_length]; rfl
    · exact fun b hb => Sum256_lt _ b (List.mem_of_mem_take hb)
    · exact fun b hb => Sum256_lt _ b (List.mem_of_mem_take hb)
  · intro e
    rw [e]

theorem Handler_Shorten_shortener (h : handlers.Handler) (r : handlers.Request) :
    (h.Shorten r).2.shortener = h.shortener
      ∨ ∃ u, (h.Shorten r).2.shortener = (h.shortener.Shorten u).2 := by
  unfold handlers.Handler.Shorten
  by_cases hm : r.Method ≠ "POST"
  · rw [if_pos hm]; exact Or.inl rfl
  · rw [if_neg hm]
    cases hb : r.Body with
    | none => exact Or.inl rfl
    | some req =>
      right
      refine ⟨req.URL, ?_⟩
      rcases hS : h.shortener.Shorten req.URL with ⟨⟨code, err⟩, svc⟩
      cases err <;> simp only [hS]

theorem Handler_Redirect_shortener (h : handlers.Handler) (r : handlers.Request) :
    (h.Redirect r).2.shortener = h.shortener := by
  unfold handlers.Handler.Redirect
  by_cases hm : r.Method ≠ "GET"
  · rw [if_pos hm]
  · rw [if_neg hm]
    simp only
    by_cases hc : strings.TrimPrefix r.Path '/' = ""
    · rw [if_pos hc]
    · rw [if_neg hc]
      have hst := Expand_storage h.shortener (strings.TrimPrefix r.Path '/')
      rcases hS : h.shortener.Expand (strings.TrimPrefix r.Path '/') with ⟨⟨u, err⟩, svc⟩
      rw [hS] at hst
      simp only at hst
      cases err with
      | none => exact hst
      | some e =>
        simp only
        split <;> exact hst

theorem reached_snoc (calls : List Call) (k : Call) :
    reached (calls ++ [k]) = ((reached calls).call k).2 := by
  unfold reached
  rw [run_append]
  rfl

/-- The service of a handler that was made over a fresh store is in a state
that a fresh service reaches through `Shorten` and `Expand` calls. -/
theorem serve_reached (baseURL : String) (reqs : List handlers.Route) :
    ∃ calls, ((handlers.Handler.New baseURL Storage.New).serve reqs).shortener = reached calls := by
  have key : ∀ (reqs : List handlers.Route) (h : handlers.Handler),
      (∃ calls, h.shortener = reached calls) →
        ∃ calls, (h.serve reqs).shortener = reached calls := by
    intro reqs
    induction reqs with
    | nil => intro h hh; exact hh
    | cons q qs ih =>
      intro h ⟨calls, hc⟩
      cases q with
      | shorten r =>
        simp only [handlers.Handler.serve]
        apply ih
        rcases Handler_Shorten_shortener h r with e | ⟨u, e⟩
        · exact ⟨calls, e.trans hc⟩
        · exact ⟨calls ++ [Call.shorten u], by rw [e, hc, reached_snoc]; rfl⟩
      | redirect r =>
        simp only [handlers.Handler.serve]
        apply ih
        exact ⟨calls, (Handler_Redirect_shortener h r).trans hc⟩
  exact key reqs _ ⟨[], rfl⟩

theorem stored_code_not_blank (calls : List Call) (c u : String)
    (h : (reached calls).storage.shortToLong.lookup c = some u) : isBlank c = false := by
  rw [((Coherent_run calls).2 c u h).1]
  exact generateCode_not_blank _ (by rw [reached_codeLength]; decide) u

theorem Coherent_fresh (s : Service) (h : s.storage = Storage.New) (calls : List Call) :
    s.Coherent calls := by
  constructor
  · intro v c hl
    rw [h] at hl
    simp [Storage.New] at hl
  · intro c w hl
    rw [h] at hl
    simp [Storage.New] at hl

/-- On a service that started over a fresh store, after any calls, `Shorten` of
a valid URL returns the generated code of the service at its start. -/
theorem Shorten_run_fresh (s : Service) (h : s.storage = Storage.New) (calls : List Call)
    (u : String) (hu : validURL u = true) :
    ((s.run calls).2.Shorten u).1 = (s.generateCode u, none) := by
  have hc := Coherent_run_of_subset calls calls (fun _ hk => hk) s (Coherent_fresh s h calls)
  have hg : (s.run calls).2.generateCode u = s.generateCode u :=
    generateCode_congr _ _ (run_codeLength calls s) u
  rw [Shorten_valid_result _ u hu]
  cases hl : (s.run calls).2.storage.longToShort.lookup u with
  | none => rw [Option.getD_none, hg]
  | some c => rw [Option.getD_some, (hc.1 u c hl).2.1, hg]

theorem generateCode_eq_take (s : Service) (u : String) :
    s.generateCode u
      = ⟨(strings.TrimRight (base64.EncodeToString (sha256.Sum256 (utf8 u)))
          [base64.padChar]).take s.codeLength⟩ := by
  obtain ⟨body, -, -, ht, hd⟩ := generateCode_data s u
  rw [ht]
  cases hg : s.generateCode u with
  | mk data =>
    rw [hg] at hd
    simp only at hd
    rw [hd]

/-! ## The claims -/

/-- C1 (idempotency): for a valid long URL `u`, any service state `s` and any
sequence of `Shorten` and `Expand` calls that holds a `Shorten(u)` call, every
call has a result, every `Shorten(u)` call of the sequence returns one and the
same code `c` with no error, and afterwards the long-to-short map holds exactly
one entry for `u`, which carries `c`. -/
theorem C1_shorten_idempotent (s : Service) (u : String) (hu : validURL u = true)
    (calls : List Call) (hmem : Call.shorten u ∈ calls) :
    (s.run calls).1.length = calls.length ∧
    ∃ c : String,
      (∀ p ∈ calls.zip (s.run calls).1, p.1 = Call.shorten u → p.2 = (c, none))
      ∧ (s.run calls).2.storage.GetShortCode u = (c, true)
      ∧ entriesAt (s.run calls).2.storage.longToShort u = {⟨u, c⟩} := by
  refine ⟨run_length calls s, (s.storage.longToShort.lookup u).getD (s.generateCode u), ?_, ?_, ?_⟩
  · exact (run_answers u hu calls s).1
  · have h := (run_answers u hu calls s).2 hmem
    simp [Storage.GetShortCode, h]
  · exact entriesAt_of_lookup _ _ _ ((run_answers u hu calls s).2 hmem)

theorem C1_shorten_idempotent_witness :
    ((Service.New Storage.New).run idempotencyCalls).1.length = idempotencyCalls.length ∧
    ∃ c : String,
      (∀ p ∈ idempotencyCalls.zip ((Service.New Storage.New).run idempotencyCalls).1,
        p.1 = Call.shorten idempotencyURL → p.2 = (c, none))
      ∧ ((Service.New Storage.New).run idempotencyCalls).2.storage.GetShortCode idempotencyURL
          = (c, true)
      ∧ entriesAt ((Service.New Storage.New).run idempotencyCalls).2.storage.longToShort
          idempotencyURL = {⟨idempotencyURL, c⟩} :=
  C1_shorten_idempotent (Service.New Storage.New) idempotencyURL (by decide) idempotencyCalls
    (by decide)

/-- Counterexample to C2 as stated: after `Shorten(collisionURL1)` and
`Shorten(collisionURL2)` on a fresh service, `Shorten(collisionURL1)` returns
the code `pU6gaO7K` with no error and `Expand` of that code, called right
after, returns `collisionURL2`, not `collisionURL1`. -/
theorem C2_roundtrip_counterexample :
    validURL collisionURL1 = true
      ∧ ((reached [Call.shorten collisionURL1, Call.shorten collisionURL2]).Shorten
          collisionURL1).1 = ("pU6gaO7K", none)
      ∧ (((reached [Call.shorten collisionURL1, Call.shorten collisionURL2]).Shorten
          collisionURL1).2.Expand "pU6gaO7K").1 = (collisionURL2, none)
      ∧ collisionURL2 ≠ collisionURL1 := by decide!

/-- C2 (round trip), amended: for every valid long URL `u` and every state that
a fresh service reaches through `Shorten` and `Expand` calls among which no
valid URL other than `u` with the same generated code as `u` is shortened,
`Shorten(u)` returns a code `c` with no error and `Expand(c)`, called right
after, returns `u` with no error. -/
theorem C2_roundtrip (u : String) (hu : validURL u = true) (calls : List Call)
    (hno : ∀ v, Call.shorten v ∈ calls → validURL v = true → v ≠ u →
      (Service.New Storage.New).generateCode v ≠ (Service.New Storage.New).generateCode u) :
    ∃ c, ((reached calls).Shorten u).1 = (c, none)
      ∧ (((reached calls).Shorten u).2.Expand c).1 = (u, none) := by
  have hg : ∀ x, (reached calls).generateCode x = (Service.New Storage.New).generateCode x :=
    fun x => generateCode_congr _ _ (reached_codeLength calls) x
  have hnb : isBlank ((reached calls).generateCode u) = false :=
    generateCode_not_blank _ (by rw [reached_codeLength]; decide) u
  have hT : ¬ strings.TrimSpace ((reached calls).generateCode u) = "" := by
    rw [TrimSpace_eq_empty_iff]; simp [hnb]
  obtain ⟨h1, h2⟩ := Coherent_run calls
  refine ⟨(reached calls).generateCode u, ?_, ?_⟩
  · rw [Shorten_valid_result _ u hu]
    cases hl : (reached calls).storage.longToShort.lookup u with
    | none => rw [Option.getD_none]
    | some c => rw [Option.getD_some, ← (h1 u c hl).2.1]
  · rw [Shorten_of_valid _ u hu]
    cases hl : (reached calls).storage.longToShort.lookup u with
    | none =>
      simp only [Service.Expand, if_neg hT, Storage.GetLongURL, Storage.Store,
        Finmap.lookup_insert]
    | some c =>
      obtain ⟨-, hc, ⟨w, hw⟩, -⟩ := h1 u c hl
      obtain ⟨hcw, hlw, hmem⟩ := h2 c w hw
      have hwu : w = u := by
        by_contra hne
        refine hno w hmem (h1 w c hlw).1 hne ?_
        rw [← hg, ← hg, ← hcw, ← hc]
      subst hwu
      simp only [Service.Expand, if_neg hT, Storage.GetLongURL]
      rw [← hc, hw]

theorem C2_roundtrip_witness :
    validURL expandURL = true ∧
    ∃ c, ((reached [Call.shorten "https://www.example.com/path1",
          Call.shorten expandURL]).Shorten expandURL).1 = (c, none)
      ∧ (((reached [Call.shorten "https://www.example.com/path1",
          Call.shorten expandURL]).Shorten expandURL).2.Expand c).1 = (expandURL, none) :=
  ⟨by decide, C2_roundtrip expandURL (by decide)
    [Call.shorten "https://www.example.com/path1", Call.shorten expandURL] (by
      intro v hv _ hne
      simp only [List.mem_cons, Call.shorten.injEq, List.mem_singleton, List.not_mem_nil,
        or_false] at hv
      rcases hv with rfl | rfl
      · decide!
      · exact absurd rfl hne)⟩

/-- C3: for every string that is empty or holds white space only, `Shorten`
fails with `ErrEmptyURL`, returns the empty code and leaves the service as it
was, whatever the store holds and whether or not the string would parse as a
URL; it is never reported as `ErrInvalidURL`. -/
theorem C3_shorten_blank (s : Service) (u : String) (hu : isBlank u = true) :
    s.Shorten u = (("", some Error.ErrEmptyURL), s)
      ∧ (s.Shorten u).1.2 ≠ some Error.ErrInvalidURL := by
  rw [Shorten_of_blank s u hu]
  exact ⟨rfl, by simp⟩

theorem C3_shorten_blank_witness :
    (isBlank "" = true ∧ isBlank "   " = true ∧ isBlank " \t\n" = true
      ∧ url.Parse (utf8 " \t\n") = none)
    ∧ ((Service.New Storage.New).Shorten "" = (("", some Error.ErrEmptyURL), Service.New Storage.New)
      ∧ ((Service.New Storage.New).Shorten "").1.2 ≠ some Error.ErrInvalidURL)
    ∧ ((Service.New Storage.New).Shorten "   "
        = (("", some Error.ErrEmptyURL), Service.New Storage.New)
      ∧ ((Service.New Storage.New).Shorten "   ").1.2 ≠ some Error.ErrInvalidURL)
    ∧ ((Service.New Storage.New).Shorten " \t\n"
        = (("", some Error.ErrEmptyURL), Service.New Storage.New)
      ∧ ((Service.New Storage.New).Shorten " \t\n").1.2 ≠ some Error.ErrInvalidURL) :=
  ⟨by decide, C3_shorten_blank _ "" (by decide), C3_shorten_blank _ "   " (by decide),
    C3_shorten_blank _ " \t\n" (by decide)⟩

/-- C4: for every input that is not blank after trimming white space, `Shorten`
fails with `ErrInvalidURL` exactly when parsing the input as a URL fails or the
parsed URL has an empty scheme or an empty host; it then returns the empty code
and leaves the service as it was; in every other case it returns a code with no
error.  On every input, `ErrEmptyURL` and `ErrInvalidURL` are the only failures
of `Shorten`. -/
theorem C4_shorten_invalid_iff (s : Service) (u : String) :
    (strings.TrimSpace u ≠ "" →
      ((s.Shorten u).1.2 = some Error.ErrInvalidURL ↔
          (url.Parse (utf8 u) = none
            ∨ ∃ p, url.Parse (utf8 u) = some p ∧ (p.Scheme = [] ∨ p.Host = [])))
        ∧ ((s.Shorten u).1.2 = some Error.ErrInvalidURL →
            s.Shorten u = (("", some Error.ErrInvalidURL), s))
        ∧ ((s.Shorten u).1.2 ≠ some Error.ErrInvalidURL → (s.Shorten u).1.2 = none))
      ∧ ((s.Shorten u).1.2 = none ∨ (s.Shorten u).1.2 = some Error.ErrEmptyURL
          ∨ (s.Shorten u).1.2 = some Error.ErrInvalidURL) := by
  unfold Service.Shorten
  by_cases hu : strings.TrimSpace u = ""
  · simp [hu]
  · rw [if_neg hu]
    cases hp : url.Parse (utf8 u) with
    | none => simp
    | some p =>
      by_cases h : p.Scheme = [] ∨ p.Host = []
      · simp [h]
      · simp only [if_neg h]
        unfold Storage.GetShortCode
        cases s.storage.longToShort.lookup u <;> simp [h]

theorem C4_shorten_invalid_iff_witness :
    strings.TrimSpace "http://" ≠ "" ∧
    (((Service.New Storage.New).Shorten "http://").1.2 = some Error.ErrInvalidURL ↔
        (url.Parse (utf8 "http://") = none
          ∨ ∃ p, url.Parse (utf8 "http://") = some p ∧ (p.Scheme = [] ∨ p.Host = [])))
      ∧ (((Service.New Storage.New).Shorten "http://").1.2 = some Error.ErrInvalidURL →
          (Service.New Storage.New).Shorten "http://"
            = (("", some Error.ErrInvalidURL), Service.New Storage.New))
      ∧ (((Service.New Storage.New).Shorten "http://").1.2 ≠ some Error.ErrInvalidURL →
          ((Service.New Storage.New).Shorten "http://").1.2 = none) :=
  ⟨by decide, (C4_shorten_invalid_iff (Service.New Storage.New) "http://").1 (by decide)⟩

/-- C5 (validation boundary): on any service, `Shorten` of `not-a-valid-url`,
of `example.com`, of `://missing-scheme.com` and of `http://` fails with
`ErrInvalidURL`, returns the empty code and leaves the store as it was. -/
theorem C5_shorten_invalid_examples (s : Service) :
    s.Shorten "not-a-valid-url" = (("", some Error.ErrInvalidURL), s)
      ∧ s.Shorten "example.com" = (("", some Error.ErrInvalidURL), s)
      ∧ s.Shorten "://missing-scheme.com" = (("", some Error.ErrInvalidURL), s)
      ∧ s.Shorten "http://" = (("", some Error.ErrInvalidURL), s) :=
  ⟨Shorten_of_not_hasSchemeAndHost s _ (by decide) (by decide),
    Shorten_of_not_hasSchemeAndHost s _ (by decide) (by decide),
    Shorten_of_not_hasSchemeAndHost s _ (by decide) (by decide),
    Shorten_of_not_hasSchemeAndHost s _ (by decide) (by decide)⟩

/-- C6: the result of `Expand` is fully determined.  For an empty or white-space
code it is `ErrEmptyURL`, whatever the store holds; for every other code it is
the result of the store's `GetLongURL`, unchanged: `ErrNotFound` when the code
is not a key of the short-to-long map, and the long URL stored for the code,
with no error, when it is.  The service is left as it was. -/
theorem C6_expand_result (s : Service) (c : String) :
    (isBlank c = true → s.Expand c = (("", some Error.ErrEmptyURL), s))
      ∧ (isBlank c = false → s.Expand c = (s.storage.GetLongURL c, s))
      ∧ (isBlank c = false → s.storage.shortToLong.lookup c = none →
          s.Expand c = (("", some Error.ErrNotFound), s))
      ∧ (∀ u, isBlank c = false → s.storage.shortToLong.lookup c = some u →
          s.Expand c = ((u, none), s)) := by
  unfold Service.Expand
  refine ⟨?_, ?_, ?_, ?_⟩
  · intro h
    rw [if_pos ((TrimSpace_eq_empty_iff c).2 h)]
  · intro h
    rw [if_neg (by rw [TrimSpace_eq_empty_iff]; simp [h])]
  · intro h hl
    rw [if_neg (by rw [TrimSpace_eq_empty_iff]; simp [h])]
    simp [Storage.GetLongURL, hl]
  · intro u h hl
    rw [if_neg (by rw [TrimSpace_eq_empty_iff]; simp [h])]
    simp [Storage.GetLongURL, hl]

theorem C6_expand_result_witness :
    (Service.New Storage.New).Expand "" = (("", some Error.ErrEmptyURL), Service.New Storage.New)
      ∧ (Service.New Storage.New).Expand "nonexistent"
          = (("", some Error.ErrNotFound), Service.New Storage.New)
      ∧ (Service.New (Storage.New.Store "abc123" "https://example.com")).Expand "abc123"
          = (("https://example.com", none),
              Service.New (Storage.New.Store "abc123" "https://example.com")) :=
  ⟨(C6_expand_result _ "").1 (by decide),
    (C6_expand_result _ "nonexistent").2.2.1 (by decide) (by decide),
    (C6_expand_result _ "abc123").2.2.2 "https://example.com" (by decide) (by decide)⟩

/-- C7: for every valid long URL, `Shorten` on a service made by `New` over a
store that only the service has written to returns, with no error, a non-empty
code of exactly 8 characters (`DefaultCodeLength`); the URL-safe base64
encoding of the 32-byte checksum is 43 characters long once its padding is
removed, which is more than 8. -/
theorem C7_code_length (u : String) (hu : validURL u = true) (calls : List Call) :
    ((reached calls).Shorten u).1.2 = none
      ∧ ((reached calls).Shorten u).1.1.length = DefaultCodeLength
      ∧ ((reached calls).Shorten u).1.1 ≠ ""
      ∧ (sha256.Sum256 (utf8 u)).length = 32
      ∧ (strings.TrimRight (base64.EncodeToString (sha256.Sum256 (utf8 u)))
          [base64.padChar]).length = 43 := by
  have hcode : ((reached calls).Shorten u).1 = ((reached calls).generateCode u, none) := by
    rw [Shorten_valid_result _ u hu]
    cases hl : (reached calls).storage.longToShort.lookup u with
    | none => rw [Option.getD_none]
    | some c => rw [Option.getD_some, ← ((Coherent_run calls).1 u c hl).2.1]
  have hlen := generateCode_length (reached calls) (reached_codeLength calls) u
  obtain ⟨body, hb, -, ht, -⟩ := generateCode_data (reached calls) u
  have hfst : ((reached calls).Shorten u).1.1 = (reached calls).generateCode u := by
    rw [hcode]
  have hsnd : ((reached calls).Shorten u).1.2 = none := by
    rw [hcode]
  have h2 : ((reached calls).Shorten u).1.1.length = DefaultCodeLength := by
    rw [hfst, hlen, DefaultCodeLength]
  have h3 : ((reached calls).Shorten u).1.1 ≠ "" := by
    intro h
    rw [h] at h2
    exact absurd h2 (by decide)
  have h4 : (sha256.Sum256 (utf8 u)).length = 32 := Sum256_length _
  have h5 : (strings.TrimRight (base64.EncodeToString (sha256.Sum256 (utf8 u)))
      [base64.padChar]).length = 43 := by
    rw [ht, hb]
  exact ⟨hsnd, h2, h3, h4, h5⟩

theorem C7_code_length_witness :
    validURL "https://www.example.com/very/long/path/to/resource" = true ∧
    (((reached idempotencyCalls).Shorten
          "https://www.example.com/very/long/path/to/resource").1.2 = none
      ∧ ((reached idempotencyCalls).Shorten
          "https://www.example.com/very/long/path/to/resource").1.1.length = DefaultCodeLength
      ∧ ((reached idempotencyCalls).Shorten
          "https://www.example.com/very/long/path/to/resource").1.1 ≠ ""
      ∧ (sha256.Sum256 (utf8 "https://www.example.com/very/long/path/to/resource")).length = 32
      ∧ (strings.TrimRight (base64.EncodeToString
          (sha256.Sum256 (utf8 "https://www.example.com/very/long/path/to/resource")))
          [base64.padChar]).length = 43) :=
  ⟨by decide, C7_code_length "https://www.example.com/very/long/path/to/resource" (by decide)
    idempotencyCalls⟩

/-- C8 (determinism across instances): for a valid long URL `u`, two services
that each started over its own fresh store and have the same code length
return the identical result for `Shorten(u)`, right away and after each of
them has served any calls of its own; the code is a function of the URL and the
code length only: the first `codeLength` characters of the unpadded URL-safe
base64 encoding of the SHA-256 checksum of `u`. -/
theorem C8_shorten_deterministic (u : String) (hu : validURL u = true) (s1 s2 : Service)
    (h1 : s1.storage = Storage.New) (h2 : s2.storage = Storage.New)
    (hn : s1.codeLength = s2.codeLength) (calls1 calls2 : List Call) :
    ((s1.run calls1).2.Shorten u).1 = ((s2.run calls2).2.Shorten u).1
      ∧ ((s1.run calls1).2.Shorten u).1
        = (⟨(strings.TrimRight (base64.EncodeToString (sha256.Sum256 (utf8 u)))
            [base64.padChar]).take s1.codeLength⟩, none) := by
  have e1 := Shorten_run_fresh s1 h1 calls1 u hu
  have e2 := Shorten_run_fresh s2 h2 calls2 u hu
  constructor
  · rw [e1, e2, generateCode_congr s1 s2 hn u]
  · rw [e1, generateCode_eq_take s1 u]

theorem C8_shorten_deterministic_witness :
    validURL "https://www.example.com/test" = true ∧
    ((((Service.New Storage.New).run []).2.Shorten "https://www.example.com/test").1
        = (((Service.New Storage.New).run
            [Call.shorten "https://www.example.com/test", Call.expand "NipG9eje",
              Call.shorten idempotencyURL]).2.Shorten "https://www.example.com/test").1
      ∧ (((Service.New Storage.New).run []).2.Shorten "https://www.example.com/test").1
        = (⟨(strings.TrimRight (base64.EncodeToString
            (sha256.Sum256 (utf8 "https://www.example.com/test")))
            [base64.padChar]).take (Service.New Storage.New).codeLength⟩, none))
    ∧ (⟨(strings.TrimRight (base64.EncodeToString
            (sha256.Sum256 (utf8 "https://www.example.com/test")))
            [base64.padChar]).take (Service.New Storage.New).codeLength⟩ : String)
        = "NipG9eje"
    ∧ ((Service.New Storage.New).run []).2
        ≠ ((Service.New Storage.New).run
            [Call.shorten "https://www.example.com/test", Call.expand "NipG9eje",
              Call.shorten idempotencyURL]).2 :=
  ⟨by decide, C8_shorten_deterministic "https://www.example.com/test" (by decide)
    (Service.New Storage.New) (Service.New Storage.New) rfl rfl rfl []
    [Call.shorten "https://www.example.com/test", Call.expand "NipG9eje",
      Call.shorten idempotencyURL], by decide!, by decide!⟩

/-- C9 (store round trip): for every store state and all strings `c` and `u`,
after `Store(c, u)` the lookup `GetLongURL(c)` returns `u` with no error and the
lookup `GetShortCode(u)` returns `(c, true)`. -/
theorem C9_store_roundtrip (st : Storage) (c u : String) :
    (st.Store c u).GetLongURL c = (u, none) ∧ (st.Store c u).GetShortCode u = (c, true) := by
  simp [Storage.Store, Storage.GetLongURL, Storage.GetShortCode, Finmap.lookup_insert]

/-- Counterexample to C10 as stated: the two `Store` calls that `Shorten(collisionURL1)`
and `Shorten(collisionURL2)` make on a fresh service leave a store in which
`GetShortCode(collisionURL1)` is `(pU6gaO7K, true)` while `GetLongURL(pU6gaO7K)`
is `collisionURL2`, not `collisionURL1`. -/
theorem C10_consistency_counterexample :
    (reached [Call.shorten collisionURL1, Call.shorten collisionURL2]).storage
        = Storage.New.storeAll [("pU6gaO7K", collisionURL1), ("pU6gaO7K", collisionURL2)]
      ∧ (Storage.New.storeAll [("pU6gaO7K", collisionURL1),
          ("pU6gaO7K", collisionURL2)]).GetShortCode collisionURL1 = ("pU6gaO7K", true)
      ∧ (Storage.New.storeAll [("pU6gaO7K", collisionURL1),
          ("pU6gaO7K", collisionURL2)]).GetLongURL "pU6gaO7K" = (collisionURL2, none)
      ∧ collisionURL2 ≠ collisionURL1 := by decide!

/-- C10 (bidirectional consistency), amended.  In every store state reached
from an empty store by `Store` calls among which no code is stored with two
different long URLs and no long URL with two different codes, and in every
store state that a fresh service reaches through `Shorten` and `Expand` calls
among which no two different valid URLs with the same generated code are
shortened: for every long URL `u` and every code `c`, `GetShortCode(u)` is
`(c, true)` if and only if `GetLongURL(c)` is `u` with no error. -/
theorem C10_consistency :
    (∀ pairs : List (String × String),
      (∀ p ∈ pairs, ∀ q ∈ pairs, (p.1 = q.1 ↔ p.2 = q.2)) →
      ∀ u c : String, (Storage.New.storeAll pairs).GetShortCode u = (c, true)
        ↔ (Storage.New.storeAll pairs).GetLongURL c = (u, none))
    ∧ (∀ calls : List Call,
      (∀ v w, Call.shorten v ∈ calls → Call.shorten w ∈ calls → validURL v = true →
        validURL w = true →
        (Service.New Storage.New).generateCode v = (Service.New Storage.New).generateCode w →
        v = w) →
      ∀ u c : String, (reached calls).storage.GetShortCode u = (c, true)
        ↔ (reached calls).storage.GetLongURL c = (u, none)) := by
  constructor
  · intro pairs h u c
    rw [GetShortCode_eq_iff, GetLongURL_eq_iff, (lookup_storeAll pairs h u c).1,
      (lookup_storeAll pairs h u c).2]
  · intro calls h u c
    rw [GetShortCode_eq_iff, GetLongURL_eq_iff]
    have hg : ∀ x, (reached calls).generateCode x = (Service.New Storage.New).generateCode x :=
      fun x => generateCode_congr _ _ (reached_codeLength calls) x
    obtain ⟨h1, h2⟩ := Coherent_run calls
    constructor
    · intro hl
      obtain ⟨hv, hc, ⟨w, hw⟩, hmemu⟩ := h1 u c hl
      obtain ⟨hcw, hlw, hmem⟩ := h2 c w hw
      have hwu : w = u :=
        h w u hmem hmemu (h1 w c hlw).1 hv (by rw [← hg, ← hg, ← hcw, ← hc])
      rw [← hwu]
      exact hw
    · intro hs
      exact (h2 c u hs).2.1

theorem C10_consistency_witness :
    ((Storage.New.storeAll [("abc123", "https://example.com"),
          ("def456", "https://example.org")]).GetShortCode "https://example.com" = ("abc123", true)
        ↔ (Storage.New.storeAll [("abc123", "https://example.com"),
          ("def456", "https://example.org")]).GetLongURL "abc123" = ("https://example.com", none))
      ∧ ((reached [Call.shorten expandURL]).storage.GetShortCode expandURL = ("E1XbBy38", true)
        ↔ (reached [Call.shorten expandURL]).storage.GetLongURL "E1XbBy38" = (expandURL, none)) :=
  ⟨C10_consistency.1 [("abc123", "https://example.com"), ("def456", "https://example.org")]
      (by decide) "https://example.com" "abc123",
    C10_consistency.2 [Call.shorten expandURL] (by
      intro v w hv hw _ _ _
      simp only [List.mem_singleton, Call.shorten.injEq] at hv hw
      rw [hv, hw]) expandURL "E1XbBy38"⟩

/-- Counterexample to C11 as stated: `Shorten(collisionURL1)` on a fresh service
creates the entries `collisionURL1 ↦ pU6gaO7K` and `pU6gaO7K ↦ collisionURL1`;
after the further call `Shorten(collisionURL2)` the short-to-long map holds
`pU6gaO7K ↦ collisionURL2`. -/
theorem C11_entries_counterexample :
    validURL collisionURL1 = true
      ∧ (reached [Call.shorten collisionURL1]).storage.GetShortCode collisionURL1
          = ("pU6gaO7K", true)
      ∧ (reached [Call.shorten collisionURL1]).storage.GetLongURL "pU6gaO7K"
          = (collisionURL1, none)
      ∧ ((reached [Call.shorten collisionURL1]).run
          [Call.shorten collisionURL2]).2.storage.GetLongURL "pU6gaO7K" = (collisionURL2, none)
      ∧ collisionURL2 ≠ collisionURL1 := by decide!

/-- C11, amended: once a `Shorten` call has created the entry for a long URL `u`
with code `c`, then after any further sequence of `Shorten` and `Expand` calls
the store still has long-to-short `u ↦ c`, and it still has short-to-long
`c ↦ u` when no valid URL other than `u` with the same generated code is
shortened by those calls; no call deletes or changes a long-to-short entry, and
no call deletes a short-to-long key. -/
theorem C11_entries_persist (s : Service) (u : String) (hu : validURL u = true)
    (hnew : s.storage.longToShort.lookup u = none) (more : List Call) :
    ((s.Shorten u).2.run more).2.storage.GetShortCode u = (s.generateCode u, true)
      ∧ ((∀ v, Call.shorten v ∈ more → validURL v = true → v ≠ u →
            s.generateCode v ≠ s.generateCode u) →
          ((s.Shorten u).2.run more).2.storage.GetLongURL (s.generateCode u) = (u, none))
      ∧ (∀ (t : Service) (v c : String), t.storage.longToShort.lookup v = some c →
          (t.run more).2.storage.longToShort.lookup v = some c)
      ∧ (∀ (t : Service) (d : String), t.storage.shortToLong.lookup d ≠ none →
          (t.run more).2.storage.shortToLong.lookup d ≠ none) := by
  have hst := Shorten_new_storage s u hu hnew
  have hl : (s.Shorten u).2.storage.longToShort.lookup u = some (s.generateCode u) := by
    rw [hst]
    simp only [Storage.Store, Finmap.lookup_insert]
  have hs : (s.Shorten u).2.storage.shortToLong.lookup (s.generateCode u) = some u := by
    rw [hst]
    simp only [Storage.Store, Finmap.lookup_insert]
  refine ⟨?_, ?_, fun t v c h => run_lookup_some more t v c h,
    fun t d h => run_short_isSome more t d h⟩
  · rw [GetShortCode_eq_iff]
    exact run_lookup_some more _ u _ hl
  · intro hk
    rw [GetLongURL_eq_iff]
    refine run_short_preserved more _ u _ hl hs ?_
    intro v hmem hv hvu
    rw [generateCode_congr _ s (Shorten_codeLength s u)]
    exact hk v hmem hv hvu

theorem C11_entries_persist_witness :
    (validURL expandURL = true
      ∧ (Service.New Storage.New).storage.longToShort.lookup expandURL = none)
    ∧ (((Service.New Storage.New).Shorten expandURL).2.run
          idempotencyCalls).2.storage.GetShortCode expandURL
        = ((Service.New Storage.New).generateCode expandURL, true)
    ∧ (((Service.New Storage.New).Shorten expandURL).2.run
          idempotencyCalls).2.storage.GetLongURL
            ((Service.New Storage.New).generateCode expandURL) = (expandURL, none) :=
  ⟨by decide,
    (C11_entries_persist (Service.New Storage.New) expandURL (by decide) (by decide)
      idempotencyCalls).1,
    (C11_entries_persist (Service.New Storage.New) expandURL (by decide) (by decide)
      idempotencyCalls).2.1 (by
        intro v hv _ _
        simp only [idempotencyCalls, List.mem_cons, Call.shorten.injEq, List.mem_singleton,
          List.not_mem_nil, or_false, false_or, reduceCtorEq] at hv
        rcases hv with rfl | rfl | rfl | rfl <;> decide!)⟩

/-- Counterexample to C12 as stated: `collisionURL1` and `collisionURL2` are
valid and distinct, and `Shorten` returns the code `pU6gaO7K` for both of them,
one after the other on one fresh service. -/
theorem C12_injectivity_counterexample :
    validURL collisionURL1 = true ∧ validURL collisionURL2 = true
      ∧ collisionURL1 ≠ collisionURL2
      ∧ ((Service.New Storage.New).run
          [Call.shorten collisionURL1, Call.shorten collisionURL2]).1
          = [("pU6gaO7K", none), ("pU6gaO7K", none)] := by decide!

/-- C12 (injectivity), amended: for every two valid long URLs whose SHA-256
checksums differ within their first 6 bytes, `Shorten` returns different codes,
with no error, on one fresh service and after any calls made before; and two
valid URLs whose checksums share their first 6 bytes get the same code. -/
theorem C12_injectivity (u1 u2 : String) (h1 : validURL u1 = true) (h2 : validURL u2 = true)
    (calls1 calls2 : List Call) :
    ((sha256.Sum256 (utf8 u1)).take 6 ≠ (sha256.Sum256 (utf8 u2)).take 6 →
        ((reached calls1).Shorten u1).1.2 = none ∧ ((reached calls2).Shorten u2).1.2 = none
          ∧ ((reached calls1).Shorten u1).1.1 ≠ ((reached calls2).Shorten u2).1.1
          ∧ ∃ c1 c2, ((Service.New Storage.New).run [Call.shorten u1, Call.shorten u2]).1
              = [(c1, none), (c2, none)] ∧ c1 ≠ c2)
      ∧ ((sha256.Sum256 (utf8 u1)).take 6 = (sha256.Sum256 (utf8 u2)).take 6 →
        ((reached calls1).Shorten u1).1 = ((reached calls2).Shorten u2).1) := by
  have r1 := Shorten_reached_result calls1 u1 h1
  have r2 := Shorten_reached_result calls2 u2 h2
  have f1 : ((reached calls1).Shorten u1).1.1 = (Service.New Storage.New).generateCode u1 := by
    rw [r1]
  have f2 : ((reached calls2).Shorten u2).1.1 = (Service.New Storage.New).generateCode u2 := by
    rw [r2]
  have n1 : ((reached calls1).Shorten u1).1.2 = none := by rw [r1]
  have n2 : ((reached calls2).Shorten u2).1.2 = none := by rw [r2]
  have hiff := generateCode_eq_iff (Service.New Storage.New) rfl u1 u2
  constructor
  · intro hne
    have hg : (Service.New Storage.New).generateCode u1
        ≠ (Service.New Storage.New).generateCode u2 := fun e => hne (hiff.1 e)
    refine ⟨n1, n2, by rw [f1, f2]; exact hg, _, _, ?_, hg⟩
    have q1 := Shorten_reached_result [] u1 h1
    have q2 := Shorten_reached_result [Call.shorten u1] u2 h2
    simp only [Service.run, Service.call]
    rw [reached_nil] at q1
    simp only [reached, Service.run, Service.call] at q2
    rw [q1, q2]
  · intro he
    rw [r1, r2, hiff.2 he]

theorem C12_injectivity_witness :
    (((reached []).Shorten "https://www.example.com/path1").1.2 = none
      ∧ ((reached []).Shorten "https://www.example.com/path2").1.2 = none
      ∧ ((reached []).Shorten "https://www.example.com/path1").1.1
          ≠ ((reached []).Shorten "https://www.example.com/path2").1.1
      ∧ ∃ c1 c2, ((Service.New Storage.New).run [Call.shorten "https://www.example.com/path1",
            Call.shorten "https://www.example.com/path2"]).1
              = [(c1, none), (c2, none)] ∧ c1 ≠ c2)
      ∧ (((reached [Call.shorten collisionURL2]).Shorten collisionURL1).1
          = ((reached []).Shorten collisionURL2).1) :=
  ⟨(C12_injectivity "https://www.example.com/path1" "https://www.example.com/path2" (by decide)
      (by decide) [] []).1 (by decide!),
    (C12_injectivity collisionURL1 collisionURL2 (by decide) (by decide)
      [Call.shorten collisionURL2] []).2 (by decide!)⟩

/-- C13 (first-shorten postcondition): for every valid long URL `u` that has no
long-to-short entry yet, `Shorten(u)` returns `generateCode(u)` with no error;
the store afterwards is the old one after `Store(generateCode(u), u)`: it has
long-to-short `u ↦ c` and short-to-long `c ↦ u`, and it agrees with the old
store on every long URL other than `u` and on every short code other than `c`. -/
theorem C13_first_shorten (s : Service) (u : String) (hu : validURL u = true)
    (hnew : s.storage.longToShort.lookup u = none) :
    (s.Shorten u).1 = (s.generateCode u, none)
      ∧ (s.Shorten u).2.storage = s.storage.Store (s.generateCode u) u
      ∧ (s.Shorten u).2.storage.GetShortCode u = (s.generateCode u, true)
      ∧ (s.Shorten u).2.storage.GetLongURL (s.generateCode u) = (u, none)
      ∧ (∀ v, v ≠ u →
          (s.Shorten u).2.storage.longToShort.lookup v = s.storage.longToShort.lookup v)
      ∧ (∀ d, d ≠ s.generateCode u →
          (s.Shorten u).2.storage.shortToLong.lookup d = s.storage.shortToLong.lookup d) := by
  rw [Shorten_new s u hu hnew]
  refine ⟨rfl, rfl, ?_, ?_, ?_, ?_⟩
  · simp only [Storage.GetShortCode, Storage.Store, Finmap.lookup_insert]
  · simp only [Storage.GetLongURL, Storage.Store, Finmap.lookup_insert]
  · intro v hv
    simp only [Storage.Store]
    exact Finmap.lookup_insert_of_ne _ hv
  · intro d hd
    simp only [Storage.Store]
    exact Finmap.lookup_insert_of_ne _ hd

theorem C13_first_shorten_witness :
    validURL expandURL = true ∧ Storage.New.longToShort.lookup expandURL = none ∧
    (((Service.New Storage.New).Shorten expandURL).1
        = ((Service.New Storage.New).generateCode expandURL, none)
      ∧ ((Service.New Storage.New).Shorten expandURL).2.storage
        = Storage.New.Store ((Service.New Storage.New).generateCode expandURL) expandURL
      ∧ ((Service.New Storage.New).Shorten expandURL).2.storage.GetShortCode expandURL
        = ((Service.New Storage.New).generateCode expandURL, true)
      ∧ ((Service.New Storage.New).Shorten expandURL).2.storage.GetLongURL
          ((Service.New Storage.New).generateCode expandURL) = (expandURL, none)
      ∧ (∀ v, v ≠ expandURL →
          ((Service.New Storage.New).Shorten expandURL).2.storage.longToShort.lookup v
            = Storage.New.longToShort.lookup v)
      ∧ (∀ d, d ≠ (Service.New Storage.New).generateCode expandURL →
          ((Service.New Storage.New).Shorten expandURL).2.storage.shortToLong.lookup d
            = Storage.New.shortToLong.lookup d)) :=
  ⟨by decide, by decide, C13_first_shorten (Service.New Storage.New) expandURL (by decide)
    (by decide)⟩

/-- C14: the store changes only on the first successful shorten of a URL.  A
`Shorten` call that fails, a `Shorten` call for a URL that already has a
long-to-short entry and every `Expand` call leave the service, and so both
maps, exactly as they were; a `Shorten` call that changes the store succeeded
for a URL that had no entry.  A `Shorten` call for a URL that already has an
entry returns the existing code with no error: on any store if the URL is
valid, and for every URL on a store that only the service has written to. -/
theorem C14_store_unchanged (s : Service) :
    (∀ u, (s.Shorten u).1.2 ≠ none → (s.Shorten u).2 = s)
      ∧ (∀ u c, s.storage.longToShort.lookup u = some c →
          (s.Shorten u).2 = s ∧ (validURL u = true → (s.Shorten u).1 = (c, none)))
      ∧ (∀ c, (s.Expand c).2 = s)
      ∧ (∀ u, (s.Shorten u).2 ≠ s →
          (s.Shorten u).1.2 = none ∧ s.storage.longToShort.lookup u = none)
      ∧ (∀ calls u c, (reached calls).storage.longToShort.lookup u = some c →
          (reached calls).Shorten u = ((c, none), reached calls)) := by
  refine ⟨fun u h => Shorten_unchanged_of_error s u h, ?_, fun c => Expand_storage s c, ?_, ?_⟩
  · intro u c h
    refine ⟨Shorten_unchanged_of_lookup s u c h, fun hv => ?_⟩
    rw [Shorten_valid_result s u hv, h, Option.getD_some]
  · intro u h
    constructor
    · by_contra he
      exact h (Shorten_unchanged_of_error s u he)
    · cases hl : s.storage.longToShort.lookup u with
      | none => rfl
      | some c => exact absurd (Shorten_unchanged_of_lookup s u c hl) h
  · intro calls u c h
    rw [Shorten_of_valid _ u ((Coherent_run calls).1 u c h).1, h]

theorem C14_store_unchanged_witness :
    ((reached [Call.shorten expandURL]).Shorten "http://").2 = reached [Call.shorten expandURL]
      ∧ ((reached [Call.shorten expandURL]).Shorten expandURL).2
          = reached [Call.shorten expandURL]
      ∧ ((reached [Call.shorten expandURL]).Shorten expandURL).1 = ("E1XbBy38", none)
      ∧ ((reached [Call.shorten expandURL]).Expand "E1XbBy38").2
          = reached [Call.shorten expandURL] :=
  ⟨(C14_store_unchanged (reached [Call.shorten expandURL])).1 "http://" (by decide),
    ((C14_store_unchanged (reached [Call.shorten expandURL])).2.1 expandURL "E1XbBy38"
      (by decide!)).1,
    ((C14_store_unchanged (reached [Call.shorten expandURL])).2.1 expandURL "E1XbBy38"
      (by decide!)).2 (by decide),
    (C14_store_unchanged (reached [Call.shorten expandURL])).2.2.1 "E1XbBy38"⟩

/-- C15: every short code that `Shorten` produces for a valid URL, on a service
made by `New` over a store that only the service has written to, and every code
that `generateCode` makes on any service, consists only of characters of the
URL-safe base64 alphabet (`A-Z`, `a-z`, `0-9`, `-` and `_`): it holds no `+`,
no `/`, no `=` and no line break. -/
theorem C15_code_alphabet (u : String) (hu : validURL u = true) (calls : List Call) :
    (∀ c ∈ ((reached calls).Shorten u).1.1.data,
        c ∈ base64.encodeURL ∧ isURLSafe c = true ∧ c ≠ '+' ∧ c ≠ '/' ∧ c ≠ '='
          ∧ c ≠ Char.ofNat 10 ∧ c ≠ Char.ofNat 13)
      ∧ ∀ s : Service, ∀ c ∈ (s.generateCode u).data,
        c ∈ base64.encodeURL ∧ isURLSafe c = true ∧ c ≠ '+' ∧ c ≠ '/' ∧ c ≠ '='
          ∧ c ≠ Char.ofNat 10 ∧ c ≠ Char.ofNat 13 := by
  have hfst : ((reached calls).Shorten u).1.1 = (Service.New Storage.New).generateCode u := by
    rw [Shorten_reached_result calls u hu]
  constructor
  · intro c hc
    rw [hfst] at hc
    exact ⟨generateCode_mem _ u c hc, encodeURL_safe c (generateCode_mem _ u c hc)⟩
  · intro s c hc
    exact ⟨generateCode_mem s u c hc, encodeURL_safe c (generateCode_mem s u c hc)⟩

theorem C15_code_alphabet_witness :
    validURL "https://www.example.com/test" = true ∧
    ((∀ c ∈ ((reached idempotencyCalls).Shorten "https://www.example.com/test").1.1.data,
        c ∈ base64.encodeURL ∧ isURLSafe c = true ∧ c ≠ '+' ∧ c ≠ '/' ∧ c ≠ '='
          ∧ c ≠ Char.ofNat 10 ∧ c ≠ Char.ofNat 13)
      ∧ ∀ s : Service, ∀ c ∈ (s.generateCode "https://www.example.com/test").data,
        c ∈ base64.encodeURL ∧ isURLSafe c = true ∧ c ≠ '+' ∧ c ≠ '/' ∧ c ≠ '='
          ∧ c ≠ Char.ofNat 10 ∧ c ≠ Char.ofNat 13) :=
  ⟨by decide, C15_code_alphabet "https://www.example.com/test" (by decide) idempotencyCalls⟩

/-- C17 (HTTP outcome-to-status mapping).  The create handler answers 405 for
every method other than `POST`, 400 when the JSON body does not decode, 400
with the error message for every failure of `Shorten` (`ErrEmptyURL` or
`ErrInvalidURL`), and 201 with the short URL, the code and the long URL on
success.  The redirect handler answers 405 for every method other than `GET`,
400 when the path holds no code after its leading slash, 404 when `Expand` fails
with `ErrNotFound`, and 302 with the stored long URL as redirect target when the
code is stored, for every handler made over a fresh store and whatever requests
it has served; on any handler that holds for every stored code that is not
blank. -/
theorem C17_status_mapping (h : handlers.Handler) (r : handlers.Request) :
    (r.Method ≠ "POST" → (h.Shorten r).1.StatusCode = 405)
      ∧ (r.Method = "POST" → r.Body = none → (h.Shorten r).1.StatusCode = 400)
      ∧ (∀ req, r.Method = "POST" → r.Body = some req →
          ((h.shortener.Shorten req.URL).1.2 = some Error.ErrEmptyURL
            ∨ (h.shortener.Shorten req.URL).1.2 = some Error.ErrInvalidURL) →
          (h.Shorten r).1.StatusCode = 400)
      ∧ (∀ req, r.Method = "POST" → r.Body = some req →
          (h.shortener.Shorten req.URL).1.2 = none →
          (h.Shorten r).1 = ⟨201, handlers.Written.shortened
            ⟨h.baseURL ++ "/" ++ (h.shortener.Shorten req.URL).1.1,
              (h.shortener.Shorten req.URL).1.1, req.URL⟩⟩)
      ∧ (r.Method ≠ "GET" → (h.Redirect r).1.StatusCode = 405)
      ∧ (r.Method = "GET" → strings.TrimPrefix r.Path '/' = "" →
          (h.Redirect r).1.StatusCode = 400)
      ∧ (r.Method = "GET" → strings.TrimPrefix r.Path '/' ≠ "" →
          (h.shortener.Expand (strings.TrimPrefix r.Path '/')).1.2 = some Error.ErrNotFound →
          (h.Redirect r).1.StatusCode = 404)
      ∧ (∀ u, r.Method = "GET" → isBlank (strings.TrimPrefix r.Path '/') = false →
          h.shortener.storage.shortToLong.lookup (strings.TrimPrefix r.Path '/') = some u →
          (h.Redirect r).1 = ⟨302, handlers.Written.redirect u⟩)
      ∧ (∀ baseURL reqs u, h = (handlers.Handler.New baseURL Storage.New).serve reqs →
          r.Method = "GET" →
          h.shortener.storage.shortToLong.lookup (strings.TrimPrefix r.Path '/') = some u →
          (h.Redirect r).1 = ⟨302, handlers.Written.redirect u⟩) := by
  have h302 : ∀ u, r.Method = "GET" → isBlank (strings.TrimPrefix r.Path '/') = false →
      h.shortener.storage.shortToLong.lookup (strings.TrimPrefix r.Path '/') = some u →
      (h.Redirect r).1 = ⟨302, handlers.Written.redirect u⟩ := by
    intro u hm hb hl
    have hne : strings.TrimPrefix r.Path '/' ≠ "" := by
      intro e
      rw [e] at hb
      exact absurd hb (by decide)
    have hE : h.shortener.Expand (strings.TrimPrefix r.Path '/') = ((u, none), h.shortener) := by
      rw [Expand_of_not_blank _ _ hb]
      simp only [Storage.GetLongURL, hl]
    unfold handlers.Handler.Redirect
    rw [if_neg (by simp [hm])]
    simp only
    rw [if_neg hne, hE]
    rfl
  refine ⟨?_, ?_, ?_, ?_, ?_, ?_, ?_, h302, ?_⟩
  · intro hm
    unfold handlers.Handler.Shorten
    rw [if_pos hm]
    rfl
  · intro hm hb
    unfold handlers.Handler.Shorten
    rw [if_neg (by simp [hm]), hb]
    rfl
  · intro req hm hb he
    unfold handlers.Handler.Shorten
    rw [if_neg (by simp [hm]), hb]
    rcases hS : h.shortener.Shorten req.URL with ⟨⟨code, err⟩, svc⟩
    rw [hS] at he
    cases err with
    | none => simp at he
    | some e =>
      simp only [hS]
      rfl
  · intro req hm hb he
    unfold handlers.Handler.Shorten
    rw [if_neg (by simp [hm]), hb]
    rcases hS : h.shortener.Shorten req.URL with ⟨⟨code, err⟩, svc⟩
    rw [hS] at he
    simp only at he
    subst he
    simp only [hS]
    rfl
  · intro hm
    unfold handlers.Handler.Redirect
    rw [if_pos hm]
    rfl
  · intro hm hc
    unfold handlers.Handler.Redirect
    rw [if_neg (by simp [hm])]
    simp only
    rw [if_pos hc]
    rfl
  · intro hm hc he
    unfold handlers.Handler.Redirect
    rw [if_neg (by simp [hm])]
    simp only
    rw [if_neg hc]
    rcases hS : h.shortener.Expand (strings.TrimPrefix r.Path '/') with ⟨⟨u, err⟩, svc⟩
    rw [hS] at he
    simp only at he
    subst he
    rfl
  · intro baseURL reqs u hh hm hl
    obtain ⟨calls, hc⟩ := serve_reached baseURL reqs
    rw [← hh] at hc
    refine h302 u hm ?_ hl
    rw [hc] at hl
    exact stored_code_not_blank calls _ u hl

theorem C17_status_mapping_witness :
    ((handlers.Handler.New "http://localhost:8080" Storage.New).Shorten exampleCreate).1
        = ⟨201, handlers.Written.shortened
            ⟨"http://localhost:8080/NipG9eje", "NipG9eje", "https://www.example.com/test"⟩⟩
      ∧ (((handlers.Handler.New "http://localhost:8080" Storage.New).serve
          [handlers.Route.shorten exampleCreate]).Redirect ⟨"GET", "/NipG9eje", none⟩).1
        = ⟨302, handlers.Written.redirect "https://www.example.com/test"⟩
      ∧ (((handlers.Handler.New "http://localhost:8080" Storage.New).serve
          [handlers.Route.shorten exampleCreate]).Redirect
            ⟨"GET", "/zzzzzzzz", none⟩).1.StatusCode = 404
      ∧ ((handlers.Handler.New "http://localhost:8080" Storage.New).Redirect
          ⟨"POST", "/somecode", none⟩).1.StatusCode = 405 :=
  ⟨((C17_status_mapping (handlers.Handler.New "http://localhost:8080" Storage.New)
      exampleCreate).2.2.2.1 ⟨"https://www.example.com/test"⟩ (by decide) (by decide)
      (by decide)).trans (by decide!),
    (C17_status_mapping ((handlers.Handler.New "http://localhost:8080" Storage.New).serve
      [handlers.Route.shorten exampleCreate]) ⟨"GET", "/NipG9eje", none⟩).2.2.2.2.2.2.2.2
      "http://localhost:8080" [handlers.Route.shorten exampleCreate]
      "https://www.example.com/test" rfl (by decide) (by decide!),
    (C17_status_mapping ((handlers.Handler.New "http://localhost:8080" Storage.New).serve
      [handlers.Route.shorten exampleCreate]) ⟨"GET", "/zzzzzzzz", none⟩).2.2.2.2.2.2.1
      (by decide) (by decide) (by decide!),
    (C17_status_mapping (handlers.Handler.New "http://localhost:8080" Storage.New)
      ⟨"POST", "/somecode", none⟩).2.2.2.2.1 (by decide)⟩

/-- C18 (collision behaviour): for two distinct valid long URLs `u1` and `u2`
with the same generated code `c`, `Shorten(u1)` and then `Shorten(u2)` on a
fresh service both return `c` with no error; afterwards `Expand(c)` returns
`u2`, the store still answers `c` for `u1`, and after any further calls
`Shorten(u1)` still returns `c`. -/
theorem C18_collision (u1 u2 : String) (h1 : validURL u1 = true) (h2 : validURL u2 = true)
    (hne : u1 ≠ u2)
    (hc : (Service.New Storage.New).generateCode u1 = (Service.New Storage.New).generateCode u2) :
    ((Service.New Storage.New).run [Call.shorten u1, Call.shorten u2]).1
        = [((Service.New Storage.New).generateCode u1, none),
            ((Service.New Storage.New).generateCode u1, none)]
      ∧ ((reached [Call.shorten u1, Call.shorten u2]).Expand
          ((Service.New Storage.New).generateCode u1)).1 = (u2, none)
      ∧ (reached [Call.shorten u1, Call.shorten u2]).storage.GetShortCode u1
          = ((Service.New Storage.New).generateCode u1, true)
      ∧ ∀ more : List Call,
          (((reached [Call.shorten u1, Call.shorten u2]).run more).2.Shorten u1).1
            = ((Service.New Storage.New).generateCode u1, none) := by
  have hl0 : (Service.New Storage.New).storage.longToShort.lookup u1 = none := by
    simp only [Service.New, Storage.New, Finmap.lookup_empty]
  have r1 : ((Service.New Storage.New).Shorten u1).1
      = ((Service.New Storage.New).generateCode u1, none) := by
    rw [Shorten_valid_result _ u1 h1, hl0, Option.getD_none]
  have s1 : ((Service.New Storage.New).Shorten u1).2.storage
      = Storage.New.Store ((Service.New Storage.New).generateCode u1) u1 :=
    Shorten_new_storage _ u1 h1 hl0
  have g1 : ∀ x, ((Service.New Storage.New).Shorten u1).2.generateCode x
      = (Service.New Storage.New).generateCode x :=
    fun x => generateCode_congr _ _ (Shorten_codeLength _ u1) x
  have hl1 : ((Service.New Storage.New).Shorten u1).2.storage.longToShort.lookup u2 = none := by
    rw [s1]
    simp only [Storage.Store, Storage.New]
    rw [Finmap.lookup_insert_of_ne _ (Ne.symm hne), Finmap.lookup_empty]
  have r2 : (((Service.New Storage.New).Shorten u1).2.Shorten u2).1
      = ((Service.New Storage.New).generateCode u1, none) := by
    rw [Shorten_valid_result _ u2 h2, hl1, Option.getD_none, g1, hc]
  have s2 : (reached [Call.shorten u1, Call.shorten u2]).storage
      = (Storage.New.Store ((Service.New Storage.New).generateCode u1) u1).Store
          ((Service.New Storage.New).generateCode u1) u2 := by
    simp only [reached, Service.run, Service.call]
    rw [Shorten_new_storage _ u2 h2 hl1, s1, g1, hc]
  have hnb : isBlank ((Service.New Storage.New).generateCode u1) = false :=
    generateCode_not_blank _ (by decide) u1
  have hlong : (reached [Call.shorten u1, Call.shorten u2]).storage.longToShort.lookup u1
      = some ((Service.New Storage.New).generateCode u1) := by
    rw [s2]
    simp only [Storage.Store]
    rw [Finmap.lookup_insert_of_ne _ hne, Finmap.lookup_insert]
  refine ⟨?_, ?_, ?_, ?_⟩
  · simp only [Service.run, Service.call]
    rw [r1, r2]
  · rw [Expand_of_not_blank _ _ hnb, s2]
    simp only [Storage.GetLongURL, Storage.Store, Finmap.lookup_insert]
  · rw [GetShortCode_eq_iff]
    exact hlong
  · intro more
    have hv := run_lookup_some more _ u1 _ hlong
    rw [Shorten_valid_result _ u1 h1, hv, Option.getD_some]

theorem C18_collision_witness :
    ((Service.New Storage.New).run [Call.shorten collisionURL1, Call.shorten collisionURL2]).1
        = [((Service.New Storage.New).generateCode collisionURL1, none),
            ((Service.New Storage.New).generateCode collisionURL1, none)]
      ∧ ((reached [Call.shorten collisionURL1, Call.shorten collisionURL2]).Expand
          ((Service.New Storage.New).generateCode collisionURL1)).1 = (collisionURL2, none)
      ∧ (reached [Call.shorten collisionURL1, Call.shorten collisionURL2]).storage.GetShortCode
          collisionURL1 = ((Service.New Storage.New).generateCode collisionURL1, true)
      ∧ ∀ more : List Call,
          (((reached [Call.shorten collisionURL1, Call.shorten collisionURL2]).run
            more).2.Shorten collisionURL1).1
            = ((Service.New Storage.New).generateCode collisionURL1, none) :=
  C18_collision collisionURL1 collisionURL2 (by decide) (by decide) (by decide)
    (generateCode_collisionURL1.trans generateCode_collisionURL2.symm)

/-- C19 (reachable-state invariant): in every state that a fresh service
reaches through `Shorten` and `Expand` calls, every long-to-short entry
`u ↦ c` has `u` valid and `c = generateCode(u)`, every short-to-long entry
`c ↦ u` has `c = generateCode(u)` and the long-to-short entry `u ↦ c`, and a
successful `Shorten(u)` returns `generateCode(u)`, which does not depend on the
calls made before. -/
theorem C19_reachable_invariant (calls : List Call) :
    (∀ u c, (reached calls).storage.longToShort.lookup u = some c →
        validURL u = true ∧ c = (Service.New Storage.New).generateCode u)
      ∧ (∀ c u, (reached calls).storage.shortToLong.lookup c = some u →
        c = (Service.New Storage.New).generateCode u
          ∧ (reached calls).storage.longToShort.lookup u = some c)
      ∧ (∀ u, ((reached calls).Shorten u).1.2 = none →
        ((reached calls).Shorten u).1.1 = (Service.New Storage.New).generateCode u) := by
  obtain ⟨h1, h2⟩ := Coherent_run calls
  refine ⟨?_, ?_, ?_⟩
  · intro u c h
    obtain ⟨hv, hc, -, -⟩ := h1 u c h
    exact ⟨hv, by rw [hc, generateCode_reached]⟩
  · intro c u h
    obtain ⟨hc, hl, -⟩ := h2 c u h
    exact ⟨by rw [hc, generateCode_reached], hl⟩
  · intro u h
    have hv := validURL_of_Shorten_ok _ u h
    rw [Shorten_valid_result _ u hv]
    cases hl : (reached calls).storage.longToShort.lookup u with
    | none => rw [Option.getD_none, generateCode_reached]
    | some c => rw [Option.getD_some, (h1 u c hl).2.1, generateCode_reached]

theorem C19_reachable_invariant_witness :
    (∀ u c, (reached idempotencyCalls).storage.longToShort.lookup u = some c →
        validURL u = true ∧ c = (Service.New Storage.New).generateCode u)
      ∧ (∀ c u, (reached idempotencyCalls).storage.shortToLong.lookup c = some u →
        c = (Service.New Storage.New).generateCode u
          ∧ (reached idempotencyCalls).storage.longToShort.lookup u = some c)
      ∧ (∀ u, ((reached idempotencyCalls).Shorten u).1.2 = none →
        ((reached idempotencyCalls).Shorten u).1.1 = (Service.New Storage.New).generateCode u) :=
  C19_reachable_invariant idempotencyCalls

/-- C20: with the default code length 8, `generateCode(u)` is the URL-safe
base64 encoding of the first 6 bytes of the SHA-256 checksum of the bytes of
`u`; that encoding has 8 characters and no padding; encoding the whole 32-byte
checksum, removing the trailing `=` and keeping 8 characters gives the same
string; so two URLs whose checksums share their first 48 bits get the same
code. -/
theorem C20_code_of_six_bytes (s : Service) (h : s.codeLength = DefaultCodeLength) (u : String) :
    s.generateCode u = ⟨base64.EncodeToString ((sha256.Sum256 (utf8 u)).take 6)⟩
      ∧ (base64.EncodeToString ((sha256.Sum256 (utf8 u)).take 6)).length = 8
      ∧ base64.padChar ∉ base64.EncodeToString ((sha256.Sum256 (utf8 u)).take 6)
      ∧ (strings.TrimRight (base64.EncodeToString (sha256.Sum256 (utf8 u)))
          [base64.padChar]).take 8 = base64.EncodeToString ((sha256.Sum256 (utf8 u)).take 6)
      ∧ ∀ v : String, (sha256.Sum256 (utf8 v)).take 6 = (sha256.Sum256 (utf8 u)).take 6 →
          s.generateCode v = s.generateCode u := by
  obtain ⟨h8, hlen, hmem⟩ := TrimRight_take_eight (sha256.Sum256 (utf8 u)) (Sum256_length _)
  refine ⟨generateCode_eq_sixBytes s h u, hlen, ?_, h8, ?_⟩
  · intro hp
    have := hmem _ hp
    revert this
    decide
  · intro v hv
    rw [generateCode_eq_sixBytes s h v, generateCode_eq_sixBytes s h u, hv]

theorem C20_code_of_six_bytes_witness :
    (Service.New Storage.New).generateCode collisionURL1
        = ⟨base64.EncodeToString ((sha256.Sum256 (utf8 collisionURL1)).take 6)⟩
      ∧ (base64.EncodeToString ((sha256.Sum256 (utf8 collisionURL1)).take 6)).length = 8
      ∧ base64.padChar ∉ base64.EncodeToString ((sha256.Sum256 (utf8 collisionURL1)).take 6)
      ∧ (strings.TrimRight (base64.EncodeToString (sha256.Sum256 (utf8 collisionURL1)))
          [base64.padChar]).take 8
          = base64.EncodeToString ((sha256.Sum256 (utf8 collisionURL1)).take 6)
      ∧ ∀ v : String,
          (sha256.Sum256 (utf8 v)).take 6 = (sha256.Sum256 (utf8 collisionURL1)).take 6 →
          (Service.New Storage.New).generateCode v
            = (Service.New Storage.New).generateCode collisionURL1 :=
  C20_code_of_six_bytes (Service.New Storage.New) rfl collisionURL1

end UrlShortener
